import Mathlib

/-!
Verification of the `target_spotter` prediction pipeline
(`src/target_spotter/utils.py`, `src/target_spotter/SplicingDependency.py`)
against its natural-language specification.

The Python code is shallowly embedded over exact rational arithmetic
(`ℚ` models the finite floating-point values; the IEEE-degenerate
division-by-zero case of the standardizer is modelled separately with an
explicit non-finite marker).  Tables (`pandas.DataFrame`) are embedded as a
list of labelled rows together with a list of column labels.
-/

namespace TargetSpotter

/-! ### Numpy reductions used by `compute_single_splicing_dependency`

`np.mean(_, axis=0)`, `np.median`, `np.std` (population, `ddof=0`) and
`np.quantile` with the default linear interpolation between order
statistics, embedded for one column (one sample) of the prediction
matrix. -/

/-- Arithmetic mean of a list of rationals (`np.mean`). -/
def npMean (xs : List ℚ) : ℚ := xs.sum / xs.length

/-- Ascending sort used by the order statistics. -/
def sortQ (xs : List ℚ) : List ℚ := List.insertionSort (· ≤ ·) xs

/-- Median (`np.median`): middle element of the sorted list for odd length,
average of the two middle elements for even length. -/
def npMedian (xs : List ℚ) : ℚ :=
  let s := sortQ xs
  let n := xs.length
  if n % 2 = 1 then s.getD (n / 2) 0
  else (s.getD (n / 2 - 1) 0 + s.getD (n / 2) 0) / 2

/-- Population variance (`np.var`, `ddof = 0`): mean squared deviation. -/
def npVar (xs : List ℚ) : ℚ :=
  (xs.map (fun x => (x - npMean xs) ^ 2)).sum / xs.length

/-- Population standard deviation (`np.std`, `ddof = 0`). -/
noncomputable def npStd (xs : List ℚ) : ℝ := Real.sqrt (npVar xs)

/-- Quantile with linear interpolation between order statistics
(`np.quantile`, default `interpolation="linear"`): with `h = q*(n-1)`,
`i = ⌊h⌋` and `γ = h - i`, the result is `s[i] + γ*(s[i+1] - s[i])`. -/
def npQuantile (q : ℚ) (xs : List ℚ) : ℚ :=
  let s := sortQ xs
  let n := xs.length
  let h : ℚ := q * (n - 1)
  let i : ℕ := (⌊h⌋).toNat
  let γ : ℚ := h - i
  s.getD i 0 + γ * (s.getD (i + 1) (s.getD i 0) - s.getD i 0)

/-! ### PairEvaluator (`utils.compute_single_splicing_dependency`) -/

/-- The `K×S` ensemble prediction matrix
`y = b_intercept + b_event * PSI + b_gene * TPM` of
`compute_single_splicing_dependency` (utils.py lines 45-49): the bootstrap
coefficient vectors are column vectors of length `K`, the standardized
per-sample vectors `psi`/`tpm` are row vectors of length `S`, and numpy
broadcasting gives `y[k][s] = b_intercept[k] + b_event[k]*psi[s] +
b_gene[k]*tpm[s]`. -/
def ensemblePredictions (bEvent bGene bIntercept psi tpm : List ℚ) :
    List (List ℚ) :=
  (bIntercept.zip (bEvent.zip bGene)).map fun b =>
    (psi.zip tpm).map fun x => b.1 + b.2.1 * x.1 + b.2.2 * x.2

/-- Column `j` of the prediction matrix: the bootstrap ensemble's predicted
values for sample `j` (the `axis=0` slice reduced by each numpy summary). -/
def colAt (y : List (List ℚ)) (j : ℕ) : List ℚ :=
  y.map fun row => row.getD j 0

/-- The per-pair summary returned by `compute_single_splicing_dependency`
(utils.py lines 52-58): five per-sample series, each named after the event.
The `std` series of the source is the elementwise square root of `var`
(see `npStd` / `stdSeries`); the structure keeps the exact rational
variance so that results stay decidable. -/
structure SummaryQ where
  event : String
  mean : List ℚ
  median : List ℚ
  var : List ℚ
  q25 : List ℚ
  q75 : List ℚ
deriving DecidableEq, Repr

/-- Embedding of `utils.compute_single_splicing_dependency`: build the
ensemble prediction matrix and reduce it over the bootstrap axis, per
sample, with the five numpy summaries (utils.py lines 38-60). -/
def computeSingleSplicingDependency (event : String)
    (bEvent bGene bIntercept psi tpm : List ℚ) : SummaryQ :=
  let y := ensemblePredictions bEvent bGene bIntercept psi tpm
  let S := psi.length
  { event := event
    mean := (List.range S).map fun j => npMean (colAt y j)
    median := (List.range S).map fun j => npMedian (colAt y j)
    var := (List.range S).map fun j => npVar (colAt y j)
    q25 := (List.range S).map fun j => npQuantile (1/4) (colAt y j)
    q75 := (List.range S).map fun j => npQuantile (3/4) (colAt y j) }

/-- The `std` series of `compute_single_splicing_dependency`
(`np.std(y, axis=0)`): elementwise square root of the population variance
of each sample's ensemble column. -/
noncomputable def stdSeries (bEvent bGene bIntercept psi tpm : List ℚ) :
    List ℝ :=
  (List.range psi.length).map fun j =>
    npStd (colAt (ensemblePredictions bEvent bGene bIntercept psi tpm) j)

/-! ### Tables

A `pandas.DataFrame` with string row index and string columns is embedded
as a column-label list plus a list of labelled rows.  `lookupRow` is
`df.loc[key]` for a single row key, `locRows keys`/`locCols cols` are the
row/column selections `df.loc[keys, cols]` performed with a list-like
indexer: the result follows the order of the indexer (for the Python
`set` indexers used by the source, that order is the set's unspecified
iteration order, which the theorems model as an arbitrary enumeration of
the intersection). -/

/-- An Event×Sample or Gene×Sample table: column labels plus labelled rows. -/
structure QTable where
  cols : List String
  rows : List (String × List ℚ)
deriving DecidableEq, Repr

/-- The row index of a table. -/
def rowKeys (t : QTable) : List String := t.rows.map Prod.fst

/-- `df.loc[k]`: the first row labelled `k`, if any. -/
def lookupRow (t : QTable) (k : String) : Option (List ℚ) :=
  (t.rows.find? fun r => r.1 == k).map Prod.snd

/-- Position of a column label. -/
def colIdx (t : QTable) (s : String) : Option ℕ :=
  t.cols.findIdx? (· == s)

/-- Row selection `df.loc[keys]`: rows in indexer order. -/
def locRows (keys : List String) (t : QTable) : QTable :=
  ⟨t.cols, keys.filterMap fun k => (lookupRow t k).map fun vs => (k, vs)⟩

/-- Column selection `df.loc[:, cols]`: columns in indexer order. -/
def locCols (cs : List String) (t : QTable) : QTable :=
  ⟨cs, t.rows.map fun r => (r.1, cs.filterMap fun s => (colIdx t s).bind fun j => r.2[j]?)⟩

/-- The cell of table `t` at row label `e`, column label `s`. -/
def cellAt (t : QTable) (e s : String) : Option ℚ :=
  (lookupRow t e).bind fun vs => (colIdx t s).bind fun j => vs[j]?

/-- Well-formedness: every row has one value per column label. -/
def WFTable (t : QTable) : Prop :=
  ∀ r ∈ t.rows, r.2.length = t.cols.length

/-- One row of a coefficient table (`coefs_splicing` / `coefs_genexpr` /
`coefs_intercept`): the key columns `EVENT`, `GENE`, `ENSEMBL` plus the
bootstrap coefficient vector (one value per iteration). -/
structure CoefRow where
  event : String
  gene : String
  ensembl : String
  coefs : List ℚ
deriving DecidableEq, Repr

/-- `coefs.set_index(["EVENT", "ENSEMBL"]).loc[(e, g)]`: the first row
keyed by the (Event, Gene) pair; `none` is pandas' `KeyError`. -/
def lookupCoefs (cs : List CoefRow) (e g : String) : Option (List ℚ) :=
  (cs.find? fun r => r.event == e && r.ensembl == g).map CoefRow.coefs

/-! ### Aligner (`SplicingDependency._preprocess`, lines 77-105)

`events_avail`, `genes_avail`, `common_events`, `common_genes` and
`common_samples` are Python sets; the source then uses them directly as
`.loc` indexers, so the retained rows follow the set's iteration order.
`CommonEvent`/`CommonGene`/`CommonSample` are the membership predicates of
those sets, and an enumeration of a set is modelled as any duplicate-free
list with exactly that membership (`ValidEnum`). -/

/-- `events_avail = set(event_gene["EVENT"])`. -/
def eventsAvail (cs : List CoefRow) : List String := cs.map (·.event)

/-- `genes_avail = set(event_gene["ENSEMBL"])`. -/
def genesAvail (cs : List CoefRow) : List String := cs.map (·.ensembl)

/-- Membership in `common_events = events_avail ∩ splicing.index ∩
event_gene.loc[event_gene["ENSEMBL"].isin(genexpr.index), "EVENT"]`. -/
def CommonEvent (cs : List CoefRow) (spl gx : QTable) (e : String) : Prop :=
  e ∈ eventsAvail cs ∧ e ∈ rowKeys spl ∧
    ∃ r ∈ cs, r.event = e ∧ r.ensembl ∈ rowKeys gx

/-- Membership in `common_genes = genes_avail ∩ genexpr.index ∩
event_gene.loc[event_gene["EVENT"].isin(splicing.index), "ENSEMBL"]`. -/
def CommonGene (cs : List CoefRow) (spl gx : QTable) (g : String) : Prop :=
  g ∈ genesAvail cs ∧ g ∈ rowKeys gx ∧
    ∃ r ∈ cs, r.ensembl = g ∧ r.event ∈ rowKeys spl

/-- Membership in `common_samples = set(splicing.columns) ∩
set(genexpr.columns)`. -/
def CommonSample (spl gx : QTable) (s : String) : Prop :=
  s ∈ spl.cols ∧ s ∈ gx.cols

instance (cs : List CoefRow) (spl gx : QTable) (e : String) :
    Decidable (CommonEvent cs spl gx e) := by
  unfold CommonEvent; exact inferInstance

instance (cs : List CoefRow) (spl gx : QTable) (g : String) :
    Decidable (CommonGene cs spl gx g) := by
  unfold CommonGene; exact inferInstance

instance (spl gx : QTable) (s : String) :
    Decidable (CommonSample spl gx s) := by
  unfold CommonSample; exact inferInstance

/-- `l` enumerates a Python set with membership predicate `P`: it lists
each member exactly once, in an arbitrary (iteration) order. -/
def ValidEnum (l : List String) (P : String → Prop) : Prop :=
  l.Nodup ∧ ∀ x, x ∈ l ↔ P x

/-- `coefs.loc[coefs["EVENT"].isin(common_events) &
coefs["ENSEMBL"].isin(common_genes)]`: boolean-mask filtering, which keeps
the table's own row order. -/
def subsetCoefs (eEnum gEnum : List String) (cs : List CoefRow) : List CoefRow :=
  cs.filter fun r => decide (r.event ∈ eEnum) && decide (r.ensembl ∈ gEnum)

/-- The five tables produced by the subsetting part of `_preprocess`. -/
structure SubsetResult where
  csE : List CoefRow
  csG : List CoefRow
  csI : List CoefRow
  splicing : QTable
  genexpr : QTable
deriving DecidableEq, Repr

/-- Embedding of `_preprocess` lines 77-105: filter the three coefficient
tables to the common (Event, Gene) keys and restrict the PSI and
expression tables to the common events/genes and samples, the latter via
`set`-indexer `.loc` selections whose order is the given enumerations. -/
def preprocessSubset (csE csG csI : List CoefRow) (spl gx : QTable)
    (eEnum gEnum sEnum : List String) : SubsetResult :=
  { csE := subsetCoefs eEnum gEnum csE
    csG := subsetCoefs eEnum gEnum csG
    csI := subsetCoefs eEnum gEnum csI
    splicing := locCols sEnum (locRows eEnum spl)
    genexpr := locCols sEnum (locRows gEnum gx) }

/-! ### Standardizer (`SplicingDependency._preprocess`, lines 115-137)

The reference statistics are an external CCLE table keyed by
`(EVENT, ENSEMBL)` with columns `event_mean`, `event_std`, `gene_mean`,
`gene_std`; standardization rescales each PSI/expression cell with the
per-row reference mean/std broadcast across the sample columns.  Rational
arithmetic models the finite case; following Lean's convention `x / 0 = 0`
here, the degenerate `event_std = 0` case is modelled faithfully by the
separate `StdCell`-valued embedding below, where a zero reference std
makes the IEEE quotient non-finite (`±Inf`, or `NaN` when the numerator is
also zero). -/

/-- One row of the CCLE reference-statistics table (`ccle_stats`). -/
structure StatsRow where
  event : String
  ensembl : String
  event_mean : ℚ
  event_std : ℚ
  gene_mean : ℚ
  gene_std : ℚ
deriving DecidableEq, Repr

/-- `ccle_stats.loc[(splicing.index, slice(None)), _]`: for each event of
the PSI index in order, all statistics rows keyed by that event. -/
def selEventStats (stats : List StatsRow) (events : List String) : List StatsRow :=
  events.flatMap fun e => stats.filter fun st => st.event == e

/-- PSI standardization `splicing = (splicing - event_mean) / event_std`
(lines 117-123): the selected per-event reference column vectors are
broadcast across the sample columns.  numpy raises if the selected vector
length does not match the number of PSI rows; that failure is `none`. -/
def standardizeSplicing (stats : List StatsRow) (spl : QTable) : Option QTable :=
  let sel := selEventStats stats (rowKeys spl)
  if sel.length = spl.rows.length then
    some ⟨spl.cols, (spl.rows.zip sel).map fun p =>
      (p.1.1, p.1.2.map fun x => (x - p.2.event_mean) / p.2.event_std)⟩
  else none

/-- `DataFrame.drop_duplicates()` (keep first occurrence), restricted to
the two columns `(ENSEMBL, value)` that survive `reset_index`. -/
def dropDuplicates : List (String × ℚ) → List (String × ℚ)
  | [] => []
  | p :: rest => p :: dropDuplicates (rest.filter fun q => q ≠ p)
termination_by l => l.length
decreasing_by
  exact Nat.lt_succ_of_le (List.length_filter_le _ _)

/-- `ccle_stats.loc[(slice(None), genexpr.index), _]`: for each gene of
the expression index in order, all statistics rows keyed by that gene. -/
def selGeneStats (stats : List StatsRow) (genes : List String) : List StatsRow :=
  genes.flatMap fun g => stats.filter fun st => st.ensembl == g

/-- The deduplicated per-gene reference means
(`.loc[(slice(None), genexpr.index), "gene_mean"].reset_index(["ENSEMBL"])
.drop_duplicates()["gene_mean"]`, lines 125-130). -/
def geneMeans (stats : List StatsRow) (genes : List String) : List ℚ :=
  (dropDuplicates ((selGeneStats stats genes).map fun st =>
    (st.ensembl, st.gene_mean))).map Prod.snd

/-- The deduplicated per-gene reference stds (lines 131-136). -/
def geneStds (stats : List StatsRow) (genes : List String) : List ℚ :=
  (dropDuplicates ((selGeneStats stats genes).map fun st =>
    (st.ensembl, st.gene_std))).map Prod.snd

/-- Expression standardization `genexpr = (genexpr - gene_mean) / gene_std`
(lines 125-137), with the same broadcast-length guard as the PSI side. -/
def standardizeGenexpr (stats : List StatsRow) (gx : QTable) : Option QTable :=
  let ms := geneMeans stats (rowKeys gx)
  let ss := geneStds stats (rowKeys gx)
  if ms.length = gx.rows.length ∧ ss.length = gx.rows.length then
    some ⟨gx.cols, (gx.rows.zip (ms.zip ss)).map fun p =>
      (p.1.1, p.1.2.map fun x => (x - p.2.1) / p.2.2)⟩
  else none

/-- A standardized value in the IEEE-aware model: either a finite rational
or the non-finite result (`±Inf`/`NaN`) of dividing by a zero std. -/
inductive StdCell where
  | fin (x : ℚ)
  | nonfinite
deriving DecidableEq, Repr

/-- One standardized cell `(x - m) / s` as floating point computes it: a
zero reference std makes the quotient non-finite. -/
def stdCellDiv (x m s : ℚ) : StdCell :=
  if s = 0 then .nonfinite else .fin ((x - m) / s)

/-- The PSI standardization of lines 117-123 again, in the IEEE-aware
model: same row/statistics alignment as `standardizeSplicing`, but each
cell records whether the division was degenerate. -/
def standardizeSplicingNF (stats : List StatsRow) (spl : QTable) :
    Option (List (String × List StdCell)) :=
  let sel := selEventStats stats (rowKeys spl)
  if sel.length = spl.rows.length then
    some ((spl.rows.zip sel).map fun p =>
      (p.1.1, p.1.2.map fun x => stdCellDiv x p.2.event_mean p.2.event_std))
  else none

/-- Gene-level reference statistics are usable for gene `g` when at least
one statistics row is keyed by `g` and all rows keyed by `g` agree on
`gene_mean` and `gene_std` (one (Event, Gene) row per event of the gene,
duplicated gene statistics — the situation `drop_duplicates()` handles). -/
def GeneOK (stats : List StatsRow) (g : String) : Prop :=
  (stats.filter fun st => st.ensembl == g) ≠ [] ∧
    ∀ st1 ∈ stats, ∀ st2 ∈ stats, st1.ensembl = g → st2.ensembl = g →
      st1.gene_mean = st2.gene_mean ∧ st1.gene_std = st2.gene_std

/-- Non-degenerate reference statistics for event `E1` / gene `G1`. -/
def exStats1 : List StatsRow := [⟨"E1", "G1", 40, 10, 5, 2⟩]

/-- A one-gene expression table for the standardization example. -/
def exGxG1 : QTable := ⟨["S1"], [("G1", [7])]⟩

/-- Reference statistics with a degenerate (zero) event std for `E1`. -/
def exStats0 : List StatsRow := [⟨"E1", "G1", 40, 0, 5, 1⟩]

/-- A one-event PSI table for the degenerate-reference example. -/
def exSplE1 : QTable := ⟨["S1"], [("E1", [30])]⟩

/-- Concrete two-event coefficient table used to exercise the Aligner. -/
def exCs : List CoefRow :=
  [⟨"A", "gA", "G1", [1]⟩, ⟨"B", "gB", "G2", [1]⟩]

/-- Concrete PSI table (events `A`, `B`, sample `S1`). -/
def exSpl : QTable := ⟨["S1"], [("A", [1]), ("B", [2])]⟩

/-- Concrete expression table (genes `G1`, `G2`, sample `S1`). -/
def exGx : QTable := ⟨["S1"], [("G1", [1]), ("G2", [2])]⟩

/-! ### Dispatcher and Aggregator (`utils.compute_splicing_dependency`)

The source enumerates the (Event, Gene) pairs from the index of
`coefs_event` (row order), dispatches one `compute_single_splicing_dependency`
task per pair through `joblib.Parallel(n_jobs=n_jobs)`, and assembles the
returned summaries into five tables.  `joblib.Parallel` returns its
results in dispatch order regardless of completion order and worker
count, so the dispatcher is embedded as an ordered map over the pairs and
the worker count cannot influence the value.  Every per-pair `.loc`
lookup may raise `KeyError`, which aborts the whole run: `none`. -/

/-- The five aggregated output tables.  The source's `std` table is the
elementwise square root of `var` (see `stdTable`). -/
structure SplDepResult where
  mean : QTable
  median : QTable
  var : QTable
  q25 : QTable
  q75 : QTable
deriving DecidableEq, Repr

/-- One dispatched task (the loop body of utils.py lines 76-85): look up
the three coefficient vectors and the two signal rows of the pair, then
evaluate the pair. -/
def pairTask (splicing genexpr : QTable) (csE csG csI : List CoefRow)
    (r : CoefRow) : Option SummaryQ := do
  let bE ← lookupCoefs csE r.event r.ensembl
  let bG ← lookupCoefs csG r.event r.ensembl
  let bI ← lookupCoefs csI r.event r.ensembl
  let psi ← lookupRow splicing r.event
  let tpm ← lookupRow genexpr r.ensembl
  pure (computeSingleSplicingDependency r.event bE bG bI psi tpm)

/-- Aggregation (utils.py lines 86-98): five tables whose rows are the
per-pair summary series, in result (= dispatch) order, named by event. -/
def aggregateTables (cols : List String) (summaries : List SummaryQ) :
    SplDepResult :=
  { mean := ⟨cols, summaries.map fun s => (s.event, s.mean)⟩
    median := ⟨cols, summaries.map fun s => (s.event, s.median)⟩
    var := ⟨cols, summaries.map fun s => (s.event, s.var)⟩
    q25 := ⟨cols, summaries.map fun s => (s.event, s.q25)⟩
    q75 := ⟨cols, summaries.map fun s => (s.event, s.q75)⟩ }

/-- Embedding of `utils.compute_splicing_dependency`: enumerate the pairs
from the event-coefficient table in row order, run every task (the
`nJobs` worker count does not affect the result, per joblib's ordered
collection), and aggregate.  A failed lookup aborts the run. -/
def computeSplicingDependency (nJobs : ℕ) (splicing genexpr : QTable)
    (csE csG csI : List CoefRow) : Option SplDepResult :=
  (csE.mapM fun r => pairTask splicing genexpr csE csG csI r).map
    fun summaries => aggregateTables splicing.cols summaries

/-- The source's `std` output table: elementwise square root of `var`. -/
noncomputable def stdTable (r : SplDepResult) : List (String × List ℝ) :=
  r.var.rows.map fun p => (p.1, p.2.map fun v => Real.sqrt (v : ℚ))

/-- Number of cells of a table. -/
def tableCells (t : QTable) : ℕ := (t.rows.map fun r => r.2.length).sum

/-- Total number of cells of the five output tables. -/
def resultCells (r : SplDepResult) : ℕ :=
  tableCells r.mean + tableCells r.median + tableCells r.var +
    tableCells r.q25 + tableCells r.q75

/-- The predict pipeline in its default configuration
(`normalize_counts=False`, `log_transform=False`, so the genexpr
transform branch of `_preprocess` lines 107-113 is the identity; the
branch itself is embedded as `transformGenexpr` below): subsetting,
standardization against the CCLE reference, then the dispatched pair
evaluation. -/
def predictRun (nJobs : ℕ) (stats : List StatsRow) (csE csG csI : List CoefRow)
    (spl gx : QTable) (eEnum gEnum sEnum : List String) :
    Option SplDepResult := do
  let R := preprocessSubset csE csG csI spl gx eEnum gEnum sEnum
  let spl' ← standardizeSplicing stats R.splicing
  let gx' ← standardizeGenexpr stats R.genexpr
  computeSplicingDependency nJobs spl' gx' R.csE R.csG R.csI

/-! ### Max-harm score (`utils.compute_max_harm_score`) -/

/-- The per-cell final PSI (utils.py lines 119-121): the copied dependency
score with negative cells first set to `0`, then (still-)positive cells
set to `100`; an exactly zero score is left unchanged. -/
def psiFinalCell (d : ℚ) : ℚ :=
  if d < 0 then 0 else if 0 < d then 100 else d

/-- `max_harm = (-1) * spldep * (psi_final - splicing)` per cell. -/
def maxHarmCell (d p : ℚ) : ℚ := (-1) * d * (psiFinalCell d - p)

/-- `df.loc[common_events, common_samples]` with set indexers, given the
sets' iteration orders. -/
def restrictTable (rEnum cEnum : List String) (t : QTable) : QTable :=
  locCols cEnum (locRows rEnum t)

/-- Embedding of `utils.compute_max_harm_score` (lines 103-124): restrict
both tables to their common events and samples (set-indexer `.loc`), then
apply the cellwise max-harm transform. -/
def computeMaxHarmScore (eEnum sEnum : List String)
    (splicing spldep : QTable) : QTable :=
  let spl := restrictTable eEnum sEnum splicing
  let dep := restrictTable eEnum sEnum spldep
  ⟨sEnum, (dep.rows.zip spl.rows).map fun p =>
    (p.1.1, (p.1.2.zip p.2.2).map fun c => maxHarmCell c.1 c.2)⟩

/-! ### Genexpr transform branch (`_preprocess` lines 107-113 and `fit`
lines 42-47) over real-valued tables

`count_to_tpm` (utils.py lines 26-35) and the `np.log2(genexpr+1)`
transform work on raw expression values and involve the real logarithm;
cells are `Option ℝ` with `none` playing NaN (the source replaces the
`±Inf` of a division by a zero gene length by NaN, and a zero column sum
is likewise modelled as the non-finite case). -/

/-- A real-valued expression table: labelled rows of `Option ℝ` cells. -/
def RTable : Type := List (String × List (Option ℝ))

/-- `X = mrna_count / gene_lengths.loc[mrna_count.index].values` followed
by `X.replace([inf, -inf], nan)`: rowwise division by the gene length,
with a zero length giving NaN. -/
noncomputable def countDivLengths (geneLengths : String → ℝ) (t : RTable) :
    RTable :=
  t.map fun r => (r.1, r.2.map fun c => c.bind fun x =>
    if geneLengths r.1 = 0 then none else some (x / geneLengths r.1))

/-- Column sum of an `RTable`, skipping NaN cells (pandas `sum`). -/
noncomputable def colSumAt (t : RTable) (j : ℕ) : ℝ :=
  (t.map fun r => ((r.2[j]?).getD none).getD 0).sum

/-- Embedding of `utils.count_to_tpm`:
`tpm = 1e6 * X / X.sum(axis=0)` and `log_tpm = np.log2(tpm + 1)`. -/
noncomputable def count_to_tpm (geneLengths : String → ℝ) (t : RTable) :
    RTable :=
  let X := countDivLengths geneLengths t
  X.map fun r => (r.1, (List.range r.2.length).map fun j =>
    ((r.2[j]?).getD none).bind fun x =>
      if colSumAt X j = 0 then none
      else some (Real.logb 2 (1000000 * x / colSumAt X j + 1)))

/-- The `np.log2(genexpr + 1)` transform of the `log_transform` branch. -/
noncomputable def log2Transform (t : RTable) : RTable :=
  t.map fun r => (r.1, r.2.map fun c => c.map fun x => Real.logb 2 (x + 1))

/-- Embedding of the genexpr transform branch (`_preprocess` lines
107-113, identically `fit` lines 42-47): an `if/elif` chain in which
`normalize_counts` takes precedence and, when it is taken, the
`log_transform` option is never consulted; no error or warning is raised
when both flags are set. -/
noncomputable def transformGenexpr (normalizeCounts logTransform : Bool)
    (geneLengths : String → ℝ) (t : RTable) : RTable :=
  if normalizeCounts then count_to_tpm geneLengths t
  else if logTransform then log2Transform t
  else t

/-- A one-pair coefficient table for the prediction examples. -/
def exCsP : List CoefRow := [⟨"E1", "g", "G1", [1]⟩]

/-- Gene-coefficient table for the same pair, coefficient `0`. -/
def exCsG : List CoefRow := [⟨"E1", "g", "G1", [0]⟩]

/-- Intercept-coefficient table for the same pair, coefficient `0`. -/
def exCsI : List CoefRow := [⟨"E1", "g", "G1", [0]⟩]

/-- An intercept table keyed by a different pair: the `(E1, G1)` lookup
fails on it. -/
def exCsIother : List CoefRow := [⟨"E2", "g", "G2", [0]⟩]

/-- One-event standardized PSI table for the prediction examples. -/
def exSplP : QTable := ⟨["S1"], [("E1", [1])]⟩

/-- One-gene standardized expression table for the prediction examples. -/
def exGxP : QTable := ⟨["S1"], [("G1", [0])]⟩

/-- A PSI table with no rows: its event intersection with any coefficient
table is empty. -/
def exSplEmpty : QTable := ⟨["S1"], []⟩

/-- A one-cell dependency-score (median) table for the max-harm example. -/
def exDepM : QTable := ⟨["S1"], [("E1", [-2])]⟩

/-- A one-cell PSI table for the max-harm example. -/
def exSplM : QTable := ⟨["S1"], [("E1", [30])]⟩

/-- Entry formula of the ensemble prediction matrix, extracted positionally. -/
theorem ensemblePredictions_entry (bEvent bGene bIntercept psi tpm : List ℚ)
    (k s : ℕ) (hk : k < bIntercept.length)
    (hkE : bIntercept.length = bEvent.length)
    (hkG : bIntercept.length = bGene.length)
    (hs : s < psi.length) (hst : psi.length = tpm.length) :
    ((ensemblePredictions bEvent bGene bIntercept psi tpm).getD k []).getD s 0
      = bIntercept.getD k 0 + bEvent.getD k 0 * psi.getD s 0
        + bGene.getD k 0 * tpm.getD s 0 := by
  have hk2 : k < (bIntercept.zip (bEvent.zip bGene)).length := by
    simp only [List.length_zip]; omega
  have hs2 : s < (psi.zip tpm).length := by
    simp only [List.length_zip]; omega
  have hkI : k < bEvent.length := by omega
  have hkB : k < bGene.length := by omega
  have hs3 : s < tpm.length := by omega
  simp only [ensemblePredictions, List.getD_eq_getElem?_getD,
    List.getElem?_map, List.getElem?_eq_getElem hk2, List.getElem?_eq_getElem hs2,
    List.getElem_zip, Option.map_some', Option.getD_some,
    List.getElem?_eq_getElem hk, List.getElem?_eq_getElem hkI,
    List.getElem?_eq_getElem hkB, List.getElem?_eq_getElem hs,
    List.getElem?_eq_getElem hs3]

/-- C1.  The PairEvaluator (`compute_single_splicing_dependency`) computes
the `K×S` matrix `y[k,s] = b_intercept[k] + b_event[k]*psi[s] +
b_gene[k]*tpm[s]` and reduces it over the bootstrap axis, per sample, to
the five vectors mean, median, population standard deviation (`ddof = 0`,
kept as the exact variance `var` with `std = Real.sqrt ∘ var`, see
`stdSeries`), and 25th/75th percentiles with linear interpolation.  On the
spec's concrete input `b_event=[1,2,3]`, `b_gene=[0,0,0]`,
`b_intercept=[0,0,0]`, `psi=0.5`, `tpm=0` the ensemble predictions are
`[0.5, 1.0, 1.5]` with `mean=1`, `median=1`, `q25=0.75`, `q75=1.25`,
`var=1/6` and `std = √(1/6) ∈ (0.4082, 0.4083)`, i.e. `std ≈ 0.4082`. -/
theorem C1_pair_evaluator_correct :
    (∀ (bEvent bGene bIntercept psi tpm : List ℚ) (k s : ℕ),
        k < bIntercept.length → bIntercept.length = bEvent.length →
        bIntercept.length = bGene.length →
        s < psi.length → psi.length = tpm.length →
        ((ensemblePredictions bEvent bGene bIntercept psi tpm).getD k []).getD s 0
          = bIntercept.getD k 0 + bEvent.getD k 0 * psi.getD s 0
            + bGene.getD k 0 * tpm.getD s 0) ∧
    ensemblePredictions [1, 2, 3] [0, 0, 0] [0, 0, 0] [1/2] [0]
      = [[1/2], [1], [3/2]] ∧
    (computeSingleSplicingDependency "E1" [1, 2, 3] [0, 0, 0] [0, 0, 0]
        [1/2] [0]).mean = [1] ∧
    (computeSingleSplicingDependency "E1" [1, 2, 3] [0, 0, 0] [0, 0, 0]
        [1/2] [0]).median = [1] ∧
    (computeSingleSplicingDependency "E1" [1, 2, 3] [0, 0, 0] [0, 0, 0]
        [1/2] [0]).var = [1/6] ∧
    (computeSingleSplicingDependency "E1" [1, 2, 3] [0, 0, 0] [0, 0, 0]
        [1/2] [0]).q25 = [3/4] ∧
    (computeSingleSplicingDependency "E1" [1, 2, 3] [0, 0, 0] [0, 0, 0]
        [1/2] [0]).q75 = [5/4] ∧
    ∃ σ : ℝ, stdSeries [1, 2, 3] [0, 0, 0] [0, 0, 0] [1/2] [0] = [σ] ∧
      0.4082 < σ ∧ σ < 0.4083 := by
  refine ⟨ensemblePredictions_entry, ?_, ?_, ?_, ?_, ?_, ?_, ?_⟩
  · norm_num [ensemblePredictions]
  · norm_num [computeSingleSplicingDependency, ensemblePredictions, colAt,
      npMean, List.range_succ]
  · norm_num [computeSingleSplicingDependency, ensemblePredictions, colAt,
      npMedian, sortQ, List.range_succ, List.insertionSort, List.orderedInsert]
  · norm_num [computeSingleSplicingDependency, ensemblePredictions, colAt,
      npVar, npMean, List.range_succ]
  · norm_num [computeSingleSplicingDependency, ensemblePredictions, colAt,
      npQuantile, sortQ, List.range_succ, List.insertionSort, List.orderedInsert]
  · norm_num [computeSingleSplicingDependency, ensemblePredictions, colAt,
      npQuantile, sortQ, List.range_succ, List.insertionSort, List.orderedInsert]
  · refine ⟨npStd [1/2, 1, 3/2], ?_, ?_, ?_⟩
    · norm_num [stdSeries, ensemblePredictions, colAt, List.range_succ]
    · have hv : npVar [1/2, 1, 3/2] = 1/6 := by norm_num [npVar, npMean]
      rw [npStd, hv]
      rw [show ((0.4082 : ℝ) < Real.sqrt ((1/6 : ℚ) : ℝ)) =
        ((0.4082 : ℝ) < Real.sqrt ((1/6 : ℚ) : ℝ)) from rfl]
      rw [Real.lt_sqrt (by norm_num)]
      push_cast
      norm_num
    · have hv : npVar [1/2, 1, 3/2] = 1/6 := by norm_num [npVar, npMean]
      rw [npStd, hv, Real.sqrt_lt' (by norm_num)]
      push_cast
      norm_num

/-- Witness for C1: the general matrix-entry formula instantiated at the
concrete bootstrap index `k = 1`, sample `s = 0` of the spec's example. -/
theorem C1_pair_evaluator_correct_witness :
    ((ensemblePredictions [1, 2, 3] [0, 0, 0] [0, 0, 0] [1/2] [0]).getD 1 []).getD 0 0
      = (0 : ℚ) + 2 * (1/2) + 0 * 0 := by
  have h := C1_pair_evaluator_correct.1 [1, 2, 3] [0, 0, 0] [0, 0, 0]
    [1/2] [0] 1 0 (by norm_num) (by norm_num) (by norm_num) (by norm_num)
    (by norm_num)
  simpa using h

/-! ### Aligner lemmas -/

/-- Column selection does not change the row index. -/
theorem rowKeys_locCols (cs : List String) (t : QTable) :
    rowKeys (locCols cs t) = rowKeys t := by
  simp [rowKeys, locCols, List.map_map, Function.comp]

/-- A key present in the row index is found by `lookupRow`. -/
theorem lookupRow_isSome_of_mem {t : QTable} {k : String}
    (h : k ∈ rowKeys t) : ∃ vs, lookupRow t k = some vs := by
  have hs : (t.rows.find? fun r => r.1 == k).isSome := by
    rw [List.find?_isSome]
    rcases List.mem_map.1 h with ⟨r, hr, hk⟩
    exact ⟨r, hr, by simp [hk]⟩
  rcases Option.isSome_iff_exists.1 hs with ⟨r, hr⟩
  exact ⟨r.2, by simp [lookupRow, hr]⟩

/-- A successful `lookupRow` means the key is in the row index. -/
theorem mem_rowKeys_of_lookupRow {t : QTable} {k : String} {vs : List ℚ}
    (h : lookupRow t k = some vs) : k ∈ rowKeys t := by
  rcases Option.map_eq_some'.1 h with ⟨r, hr, -⟩
  have hk := List.find?_some hr
  have hmem := List.mem_of_find?_eq_some hr
  simp only [beq_iff_eq] at hk
  exact hk ▸ List.mem_map_of_mem Prod.fst hmem

/-- Row selection with an indexer of present keys re-indexes the table to
exactly the indexer, in indexer order. -/
theorem rowKeys_locRows {keys : List String} {t : QTable}
    (h : ∀ k ∈ keys, k ∈ rowKeys t) : rowKeys (locRows keys t) = keys := by
  induction keys with
  | nil => rfl
  | cons k ks ih =>
    rcases lookupRow_isSome_of_mem (h k (by simp)) with ⟨vs, hvs⟩
    have ih' := ih fun k' hk' => h k' (by simp [hk'])
    simp only [locRows, rowKeys, List.filterMap_cons, hvs, Option.map_some']
    simp only [List.map_cons, List.cons.injEq, true_and]
    simpa [locRows, rowKeys] using ih'

/-- Membership in the restricted row index, under a valid enumeration. -/
theorem mem_rowKeys_locRows {keys : List String} {t : QTable} {P : String → Prop}
    (hv : ValidEnum keys P) (h : ∀ k, P k → k ∈ rowKeys t) (x : String) :
    x ∈ rowKeys (locRows keys t) ↔ P x := by
  rw [rowKeys_locRows fun k hk => h k ((hv.2 k).1 hk)]
  exact hv.2 x

/-- Coefficient-table filtering is an order-preserving sublist. -/
theorem subsetCoefs_sublist (eEnum gEnum : List String) (cs : List CoefRow) :
    List.Sublist (subsetCoefs eEnum gEnum cs) cs :=
  List.filter_sublist cs

/-- Membership in the filtered coefficient table. -/
theorem mem_subsetCoefs {eEnum gEnum : List String} {cs : List CoefRow}
    {r : CoefRow} :
    r ∈ subsetCoefs eEnum gEnum cs
      ↔ r ∈ cs ∧ r.event ∈ eEnum ∧ r.ensembl ∈ gEnum := by
  simp [subsetCoefs, List.mem_filter, and_assoc]

/-- C7 (amended).  The Aligner re-indexes every table to exactly the
intersected Event, Gene and Sample key sets; the coefficient tables keep
their own row order (boolean-mask filter), while the PSI and expression
tables come out in the iteration order of the Python `set` of intersected
keys, which need not preserve the original row/column order. -/
theorem C7_aligner_restriction (csE csG csI : List CoefRow) (spl gx : QTable)
    (eEnum gEnum sEnum : List String)
    (hE : ValidEnum eEnum (CommonEvent csE spl gx))
    (hG : ValidEnum gEnum (CommonGene csE spl gx))
    (hS : ValidEnum sEnum (CommonSample spl gx)) :
    rowKeys (preprocessSubset csE csG csI spl gx eEnum gEnum sEnum).splicing = eEnum ∧
    (preprocessSubset csE csG csI spl gx eEnum gEnum sEnum).splicing.cols = sEnum ∧
    rowKeys (preprocessSubset csE csG csI spl gx eEnum gEnum sEnum).genexpr = gEnum ∧
    (preprocessSubset csE csG csI spl gx eEnum gEnum sEnum).genexpr.cols = sEnum ∧
    (∀ e, e ∈ rowKeys (preprocessSubset csE csG csI spl gx eEnum gEnum sEnum).splicing
        ↔ CommonEvent csE spl gx e) ∧
    (∀ g, g ∈ rowKeys (preprocessSubset csE csG csI spl gx eEnum gEnum sEnum).genexpr
        ↔ CommonGene csE spl gx g) ∧
    (∀ s, s ∈ (preprocessSubset csE csG csI spl gx eEnum gEnum sEnum).splicing.cols
        ↔ CommonSample spl gx s) ∧
    List.Sublist (preprocessSubset csE csG csI spl gx eEnum gEnum sEnum).csE csE ∧
    List.Sublist (preprocessSubset csE csG csI spl gx eEnum gEnum sEnum).csG csG ∧
    List.Sublist (preprocessSubset csE csG csI spl gx eEnum gEnum sEnum).csI csI ∧
    (∀ r, r ∈ (preprocessSubset csE csG csI spl gx eEnum gEnum sEnum).csE
        ↔ r ∈ csE ∧ r.event ∈ eEnum ∧ r.ensembl ∈ gEnum) := by
  have hEk : ∀ k ∈ eEnum, k ∈ rowKeys spl :=
    fun k hk => ((hE.2 k).1 hk).2.1
  have hGk : ∀ k ∈ gEnum, k ∈ rowKeys gx :=
    fun k hk => ((hG.2 k).1 hk).2.1
  have h1 : rowKeys (preprocessSubset csE csG csI spl gx eEnum gEnum sEnum).splicing = eEnum := by
    simp [preprocessSubset, rowKeys_locCols, rowKeys_locRows hEk]
  have h3 : rowKeys (preprocessSubset csE csG csI spl gx eEnum gEnum sEnum).genexpr = gEnum := by
    simp [preprocessSubset, rowKeys_locCols, rowKeys_locRows hGk]
  refine ⟨h1, rfl, h3, rfl, ?_, ?_, ?_, subsetCoefs_sublist _ _ _,
    subsetCoefs_sublist _ _ _, subsetCoefs_sublist _ _ _, fun r => mem_subsetCoefs⟩
  · intro e; rw [h1]; exact hE.2 e
  · intro g; rw [h3]; exact hG.2 g
  · intro s; exact hS.2 s

/-- The `["B", "A"]` iteration order of the event set `{A, B}` is a valid
enumeration of the common events of the example tables. -/
theorem exValidEvents : ValidEnum ["B", "A"] (CommonEvent exCs exSpl exGx) := by
  constructor
  · decide
  · intro x
    constructor
    · intro hx
      rcases List.mem_cons.1 hx with rfl | hx
      · decide
      · rcases List.mem_cons.1 hx with rfl | hx
        · decide
        · simp at hx
    · rintro ⟨h1, -, -⟩
      simp only [eventsAvail, exCs, List.map_cons, List.map_nil] at h1
      rcases List.mem_cons.1 h1 with rfl | h1
      · simp
      · rcases List.mem_cons.1 h1 with rfl | h1
        · simp
        · simp at h1

/-- `["G1", "G2"]` is a valid enumeration of the common genes. -/
theorem exValidGenes : ValidEnum ["G1", "G2"] (CommonGene exCs exSpl exGx) := by
  constructor
  · decide
  · intro x
    constructor
    · intro hx
      rcases List.mem_cons.1 hx with rfl | hx
      · decide
      · rcases List.mem_cons.1 hx with rfl | hx
        · decide
        · simp at hx
    · rintro ⟨h1, -, -⟩
      simp only [genesAvail, exCs, List.map_cons, List.map_nil] at h1
      rcases List.mem_cons.1 h1 with rfl | h1
      · simp
      · rcases List.mem_cons.1 h1 with rfl | h1
        · simp
        · simp at h1

/-- `["S1"]` is a valid enumeration of the common samples. -/
theorem exValidSamples : ValidEnum ["S1"] (CommonSample exSpl exGx) := by
  constructor
  · decide
  · intro x
    constructor
    · intro hx
      rcases List.mem_cons.1 hx with rfl | hx
      · decide
      · simp at hx
    · rintro ⟨h1, -⟩
      simp only [exSpl] at h1
      rcases List.mem_cons.1 h1 with rfl | h1
      · simp
      · simp at h1

/-- Counterexample to C7 as stated: with the set iteration order
`["B", "A"]` (a possible iteration order of the Python set `{"A", "B"}`),
the Aligner returns the PSI rows as `B` before `A`, while the original
table lists `A` before `B` — the original-order restriction would be
`["A", "B"]`, so the retained rows do not appear in their original
relative order. -/
theorem C7_counterexample :
    ValidEnum ["B", "A"] (CommonEvent exCs exSpl exGx) ∧
    rowKeys (preprocessSubset exCs exCs exCs exSpl exGx
      ["B", "A"] ["G1", "G2"] ["S1"]).splicing = ["B", "A"] ∧
    (rowKeys exSpl).filter (fun k => decide (k ∈ (["B", "A"] : List String)))
      = ["A", "B"] ∧
    (["B", "A"] : List String) ≠ ["A", "B"] :=
  ⟨exValidEvents, by decide, by decide, by decide⟩

/-- Witness for the amended C7 at the concrete example tables. -/
theorem C7_aligner_restriction_witness :
    rowKeys (preprocessSubset exCs exCs exCs exSpl exGx
      ["B", "A"] ["G1", "G2"] ["S1"]).splicing = ["B", "A"] ∧
    rowKeys (preprocessSubset exCs exCs exCs exSpl exGx
      ["B", "A"] ["G1", "G2"] ["S1"]).genexpr = ["G1", "G2"] :=
  ⟨(C7_aligner_restriction exCs exCs exCs exSpl exGx _ _ _
      exValidEvents exValidGenes exValidSamples).1,
   (C7_aligner_restriction exCs exCs exCs exSpl exGx _ _ _
      exValidEvents exValidGenes exValidSamples).2.2.1⟩

/-- C9.  Alignment is idempotent: recomputing the common Event, Gene and
Sample key sets from the Aligner's own output (the filtered coefficient
table and the restricted PSI/expression tables) yields exactly the key
sets of the first pass. -/
theorem C9_alignment_idempotent (csE csG csI : List CoefRow) (spl gx : QTable)
    (eEnum gEnum sEnum : List String)
    (hE : ValidEnum eEnum (CommonEvent csE spl gx))
    (hG : ValidEnum gEnum (CommonGene csE spl gx))
    (hS : ValidEnum sEnum (CommonSample spl gx)) :
    (∀ e, CommonEvent (subsetCoefs eEnum gEnum csE)
        (preprocessSubset csE csG csI spl gx eEnum gEnum sEnum).splicing
        (preprocessSubset csE csG csI spl gx eEnum gEnum sEnum).genexpr e
      ↔ CommonEvent csE spl gx e) ∧
    (∀ g, CommonGene (subsetCoefs eEnum gEnum csE)
        (preprocessSubset csE csG csI spl gx eEnum gEnum sEnum).splicing
        (preprocessSubset csE csG csI spl gx eEnum gEnum sEnum).genexpr g
      ↔ CommonGene csE spl gx g) ∧
    (∀ s, CommonSample
        (preprocessSubset csE csG csI spl gx eEnum gEnum sEnum).splicing
        (preprocessSubset csE csG csI spl gx eEnum gEnum sEnum).genexpr s
      ↔ CommonSample spl gx s) := by
  have hEk : ∀ k ∈ eEnum, k ∈ rowKeys spl :=
    fun k hk => ((hE.2 k).1 hk).2.1
  have hGk : ∀ k ∈ gEnum, k ∈ rowKeys gx :=
    fun k hk => ((hG.2 k).1 hk).2.1
  have hkS : rowKeys (preprocessSubset csE csG csI spl gx eEnum gEnum sEnum).splicing = eEnum := by
    simp [preprocessSubset, rowKeys_locCols, rowKeys_locRows hEk]
  have hkG : rowKeys (preprocessSubset csE csG csI spl gx eEnum gEnum sEnum).genexpr = gEnum := by
    simp [preprocessSubset, rowKeys_locCols, rowKeys_locRows hGk]
  refine ⟨?_, ?_, ?_⟩
  · intro e
    constructor
    · rintro ⟨-, h2, -⟩
      rw [hkS] at h2
      exact (hE.2 e).1 h2
    · intro h
      have he : e ∈ eEnum := (hE.2 e).2 h
      obtain ⟨-, h2, r, hr, hre, hgx⟩ := h
      have hgene : CommonGene csE spl gx r.ensembl :=
        ⟨List.mem_map_of_mem _ hr, hgx, r, hr, rfl, hre ▸ h2⟩
      have hgEnum : r.ensembl ∈ gEnum := (hG.2 _).2 hgene
      have hrcs' : r ∈ subsetCoefs eEnum gEnum csE :=
        mem_subsetCoefs.2 ⟨hr, hre ▸ he, hgEnum⟩
      refine ⟨hre ▸ List.mem_map_of_mem _ hrcs', ?_, r, hrcs', hre, ?_⟩
      · rw [hkS]; exact he
      · rw [hkG]; exact hgEnum
  · intro g
    constructor
    · rintro ⟨-, h2, -⟩
      rw [hkG] at h2
      exact (hG.2 g).1 h2
    · intro h
      have hg : g ∈ gEnum := (hG.2 g).2 h
      obtain ⟨-, h2, r, hr, hrg, hspl⟩ := h
      have hevent : CommonEvent csE spl gx r.event :=
        ⟨List.mem_map_of_mem _ hr, hspl, r, hr, rfl, hrg ▸ h2⟩
      have heEnum : r.event ∈ eEnum := (hE.2 _).2 hevent
      have hrcs' : r ∈ subsetCoefs eEnum gEnum csE :=
        mem_subsetCoefs.2 ⟨hr, heEnum, hrg ▸ hg⟩
      refine ⟨hrg ▸ List.mem_map_of_mem _ hrcs', ?_, r, hrcs', hrg, ?_⟩
      · rw [hkG]; exact hg
      · rw [hkS]; exact heEnum
  · intro s
    constructor
    · rintro ⟨h1, -⟩
      exact (hS.2 s).1 h1
    · intro h
      exact ⟨(hS.2 s).2 h, (hS.2 s).2 h⟩

/-- Witness for C9 at the concrete example tables, event `A`. -/
theorem C9_alignment_idempotent_witness :
    CommonEvent (subsetCoefs ["B", "A"] ["G1", "G2"] exCs)
      (preprocessSubset exCs exCs exCs exSpl exGx
        ["B", "A"] ["G1", "G2"] ["S1"]).splicing
      (preprocessSubset exCs exCs exCs exSpl exGx
        ["B", "A"] ["G1", "G2"] ["S1"]).genexpr "A"
    ↔ CommonEvent exCs exSpl exGx "A" :=
  (C9_alignment_idempotent exCs exCs exCs exSpl exGx _ _ _
    exValidEvents exValidGenes exValidSamples).1 "A"

/-! ### Standardizer lemmas -/

/-- Per-event statistics selection, one row per event. -/
theorem selEventStats_forall2 (stats : List StatsRow) :
    ∀ events : List String,
    (∀ e ∈ events, ∃ st, stats.filter (fun t => t.event == e) = [st]) →
    ∃ sel, selEventStats stats events = sel ∧ sel.length = events.length ∧
      List.Forall₂ (fun e st => stats.filter (fun t => t.event == e) = [st])
        events sel := by
  intro events
  induction events with
  | nil => exact fun _ => ⟨[], rfl, rfl, List.Forall₂.nil⟩
  | cons e es ih =>
    intro h
    obtain ⟨st, hst⟩ := h e (by simp)
    obtain ⟨sel, hsel, hlen, hf⟩ := ih fun e' he' => h e' (by simp [he'])
    refine ⟨st :: sel, ?_, by simp [hlen], List.Forall₂.cons hst hf⟩
    simp only [selEventStats, List.flatMap_cons, hst]
    simpa [selEventStats] using hsel

/-- Pairing the PSI rows with their selected statistics rows: positional
zip-and-map gives the rowwise broadcastized standardization. -/
theorem zip_rows_event_forall2 {stats : List StatsRow}
    {cell : ℚ → StatsRow → α} :
    ∀ (rows : List (String × List ℚ)) (sel : List StatsRow),
    List.Forall₂ (fun e st => stats.filter (fun t => t.event == e) = [st])
      (rows.map Prod.fst) sel →
    List.Forall₂ (fun r r' => r'.1 = r.1 ∧
        ∀ st, stats.filter (fun t => t.event == r.1) = [st] →
          r'.2 = r.2.map fun x => cell x st)
      rows ((rows.zip sel).map fun p => (p.1.1, p.1.2.map fun x => cell x p.2)) := by
  intro rows
  induction rows with
  | nil => intro sel h; cases h; exact List.Forall₂.nil
  | cons r rest ih =>
    intro sel h
    rw [List.map_cons] at h
    cases h with
    | cons hst hf =>
      refine List.Forall₂.cons ⟨rfl, fun st' hst' => ?_⟩ (ih _ hf)
      rw [hst] at hst'
      cases hst'
      rfl

/-- A block of equal pairs followed by pairs different from it:
`drop_duplicates` keeps one copy of the block and recurses. -/
theorem dropDuplicates_block {p : String × ℚ} :
    ∀ {b l : List (String × ℚ)}, (∀ x ∈ b, x = p) → b ≠ [] →
    dropDuplicates (b ++ l) = p :: dropDuplicates (l.filter fun q => q ≠ p) := by
  intro b l hall hne
  cases b with
  | nil => exact absurd rfl hne
  | cons q b' =>
    have hq : q = p := hall q (by simp)
    subst hq
    show dropDuplicates (q :: (b' ++ l)) = _
    rw [dropDuplicates]
    congr 1
    rw [List.filter_append]
    rw [List.filter_eq_nil_iff.mpr fun x hx => by
      simp [hall x (by simp [hx])]]
    rfl

/-- Pairs whose first components avoid `p.1` are untouched by the
`· ≠ p` filter. -/
theorem filter_ne_of_fst_ne {p : String × ℚ} {l : List (String × ℚ)}
    (h : ∀ x ∈ l, x.1 ≠ p.1) : (l.filter fun q => q ≠ p) = l :=
  List.filter_eq_self.mpr fun x hx => by
    simp only [ne_eq, decide_not, Bool.not_eq_eq_eq_not, Bool.not_true,
      decide_eq_false_iff_not]
    intro hxp
    exact h x hx (by rw [hxp])

/-- The deduplicated per-gene reference values: one value per gene of the
expression index, in index order, agreeing with every statistics row of
that gene.  Stated for a generic statistics column `f` so it applies to
both the `gene_mean` and the `gene_std` chain. -/
theorem dedup_gene_vals (stats : List StatsRow) (f : StatsRow → ℚ) :
    ∀ genes : List String, genes.Nodup →
    (∀ g ∈ genes, (stats.filter fun st => st.ensembl == g) ≠ [] ∧
      ∀ st1 ∈ stats, ∀ st2 ∈ stats, st1.ensembl = g → st2.ensembl = g →
        f st1 = f st2) →
    ∃ vals, (dropDuplicates ((selGeneStats stats genes).map fun st =>
        (st.ensembl, f st))).map Prod.snd = vals ∧
      vals.length = genes.length ∧
      List.Forall₂ (fun g v => ∀ st ∈ stats, st.ensembl = g → f st = v)
        genes vals := by
  intro genes
  induction genes with
  | nil =>
    exact fun _ _ => ⟨[], by simp [selGeneStats, dropDuplicates], rfl,
      List.Forall₂.nil⟩
  | cons g gs ih =>
    intro hnd h
    obtain ⟨hne, hagree⟩ := h g (by simp)
    obtain ⟨st0, hst0⟩ := List.exists_mem_of_ne_nil _ hne
    have hst0s : st0 ∈ stats := (List.mem_filter.1 hst0).1
    have hst0g : st0.ensembl = g := by
      have := (List.mem_filter.1 hst0).2
      simpa using this
    obtain ⟨vals, hvals, hlen, hfa⟩ := ih hnd.of_cons fun g' hg' => h g' (by simp [hg'])
    have hsel : selGeneStats stats (g :: gs)
        = (stats.filter fun st => st.ensembl == g) ++ selGeneStats stats gs := by
      simp [selGeneStats]
    have hblock : ∀ x ∈ (stats.filter fun st => st.ensembl == g).map
        (fun st => (st.ensembl, f st)), x = (g, f st0) := by
      intro x hx
      obtain ⟨st, hst, rfl⟩ := List.mem_map.1 hx
      have hsts : st ∈ stats := (List.mem_filter.1 hst).1
      have hstg : st.ensembl = g := by
        have := (List.mem_filter.1 hst).2
        simpa using this
      have := hagree st hsts st0 hst0s hstg hst0g
      simp [hstg, this]
    have hrest : ∀ x ∈ (selGeneStats stats gs).map (fun st => (st.ensembl, f st)),
        x.1 ≠ (g, f st0).1 := by
      intro x hx
      obtain ⟨st, hst, rfl⟩ := List.mem_map.1 hx
      simp only [selGeneStats] at hst
      obtain ⟨g', hg', hstf⟩ := List.mem_flatMap.1 hst
      have hstg' : st.ensembl = g' := by
        have := (List.mem_filter.1 hstf).2
        simpa using this
      have hgg : g' ≠ g := fun hgg => (List.nodup_cons.1 hnd).1 (hgg ▸ hg')
      simpa [hstg'] using hgg
    have hne' : ((stats.filter fun st => st.ensembl == g).map
        fun st => (st.ensembl, f st)) ≠ [] := by
      simp only [ne_eq, List.map_eq_nil_iff]
      exact hne
    refine ⟨f st0 :: vals, ?_, by simp [hlen], List.Forall₂.cons ?_ hfa⟩
    · rw [hsel, List.map_append, dropDuplicates_block hblock hne',
        filter_ne_of_fst_ne hrest, List.map_cons, hvals]
    · intro st hsts hstg
      exact hagree st hsts st0 hst0s hstg hst0g

/-- Combining the per-gene mean and std enumeration with the expression
rows, positionally. -/
theorem zip_rows_gene_forall2 {stats : List StatsRow} :
    ∀ (rows : List (String × List ℚ)) (ms ss : List ℚ),
    List.Forall₂ (fun g v => ∀ st ∈ stats, st.ensembl = g → st.gene_mean = v)
      (rows.map Prod.fst) ms →
    List.Forall₂ (fun g v => ∀ st ∈ stats, st.ensembl = g → st.gene_std = v)
      (rows.map Prod.fst) ss →
    List.Forall₂ (fun r r' => r'.1 = r.1 ∧
        ∀ st ∈ stats, st.ensembl = r.1 →
          r'.2 = r.2.map fun x => (x - st.gene_mean) / st.gene_std)
      rows ((rows.zip (ms.zip ss)).map fun p =>
        (p.1.1, p.1.2.map fun x => (x - p.2.1) / p.2.2)) := by
  intro rows
  induction rows with
  | nil => intro ms ss h1 _; cases h1; exact List.Forall₂.nil
  | cons r rest ih =>
    intro ms ss h1 h2
    rw [List.map_cons] at h1 h2
    cases h1 with
    | cons hm hf1 =>
      cases h2 with
      | cons hs hf2 =>
        refine List.Forall₂.cons ⟨rfl, fun st hsts hstg => ?_⟩ (ih _ _ hf1 hf2)
        rw [hm st hsts hstg, hs st hsts hstg]

/-- C2.  During prediction, standardization computes
`(value - reference_mean) / reference_std` for every (Event, Sample) and
(Gene, Sample) cell, using only the externally supplied CCLE reference
statistics and broadcasting the per-row reference mean/std across all
sample columns; for a non-degenerate reference entry (`ref_std ≠ 0`) the
transform is exactly invertible, `standardize(x) * ref_std + ref_mean = x`
(rational arithmetic, hence well within the 1e-9 relative tolerance). -/
theorem C2_standardization_reference (stats : List StatsRow) (spl gx : QTable)
    (HsplStats : ∀ e ∈ rowKeys spl, ∃ st,
      stats.filter (fun t => t.event == e) = [st])
    (HgxNodup : (rowKeys gx).Nodup)
    (HgxStats : ∀ g ∈ rowKeys gx, GeneOK stats g) :
    (∃ spl', standardizeSplicing stats spl = some spl' ∧
      spl'.cols = spl.cols ∧
      List.Forall₂ (fun r r' => r'.1 = r.1 ∧
          ∀ st, stats.filter (fun t => t.event == r.1) = [st] →
            r'.2 = r.2.map fun x => (x - st.event_mean) / st.event_std)
        spl.rows spl'.rows) ∧
    (∃ gx', standardizeGenexpr stats gx = some gx' ∧
      gx'.cols = gx.cols ∧
      List.Forall₂ (fun r r' => r'.1 = r.1 ∧
          ∀ st ∈ stats, st.ensembl = r.1 →
            r'.2 = r.2.map fun x => (x - st.gene_mean) / st.gene_std)
        gx.rows gx'.rows) ∧
    (∀ x m s : ℚ, s ≠ 0 → ((x - m) / s) * s + m = x) := by
  refine ⟨?_, ?_, fun x m s hs => by field_simp⟩
  · obtain ⟨sel, hsel, hlen, hf⟩ := selEventStats_forall2 stats (rowKeys spl) HsplStats
    have hg2 : sel.length = spl.rows.length := by
      rw [hlen]; simp [rowKeys]
    refine ⟨⟨spl.cols, (spl.rows.zip sel).map fun p =>
      (p.1.1, p.1.2.map fun x => (x - p.2.event_mean) / p.2.event_std)⟩, ?_, rfl, ?_⟩
    · simp [standardizeSplicing, hsel, hg2]
    · exact zip_rows_event_forall2 spl.rows sel (by rwa [rowKeys] at hf)
  · obtain ⟨ms, hms, hmlen, hmf⟩ := dedup_gene_vals stats StatsRow.gene_mean
      (rowKeys gx) HgxNodup
      (fun g hg => ⟨(HgxStats g hg).1,
        fun st1 h1 st2 h2 hg1 hg2 => ((HgxStats g hg).2 st1 h1 st2 h2 hg1 hg2).1⟩)
    obtain ⟨ss, hss, hslen, hsf⟩ := dedup_gene_vals stats StatsRow.gene_std
      (rowKeys gx) HgxNodup
      (fun g hg => ⟨(HgxStats g hg).1,
        fun st1 h1 st2 h2 hg1 hg2 => ((HgxStats g hg).2 st1 h1 st2 h2 hg1 hg2).2⟩)
    have hms' : geneMeans stats (rowKeys gx) = ms := hms
    have hss' : geneStds stats (rowKeys gx) = ss := hss
    have hg2 : ms.length = gx.rows.length ∧ ss.length = gx.rows.length := by
      rw [hmlen, hslen]; simp [rowKeys]
    refine ⟨⟨gx.cols, (gx.rows.zip (ms.zip ss)).map fun p =>
      (p.1.1, p.1.2.map fun x => (x - p.2.1) / p.2.2)⟩, ?_, rfl, ?_⟩
    · simp [standardizeGenexpr, hms', hss', hg2.1, hg2.2]
    · exact zip_rows_gene_forall2 gx.rows ms ss
        (by rwa [rowKeys] at hmf) (by rwa [rowKeys] at hsf)

/-- Witness for C2 at a one-event, one-gene table with reference
statistics `event_mean=40`, `event_std=10`, `gene_mean=5`, `gene_std=2`. -/
theorem C2_standardization_reference_witness :
    ∃ spl', standardizeSplicing exStats1 exSplE1 = some spl' ∧
      spl'.cols = exSplE1.cols ∧
      List.Forall₂ (fun r r' => r'.1 = r.1 ∧
          ∀ st, exStats1.filter (fun t => t.event == r.1) = [st] →
            r'.2 = r.2.map fun x => (x - st.event_mean) / st.event_std)
        exSplE1.rows spl'.rows :=
  (C2_standardization_reference exStats1 exSplE1 exGxG1
    (fun e he => by
      simp only [exSplE1, rowKeys, List.map_cons, List.map_nil] at he
      rcases List.mem_cons.1 he with rfl | he
      · exact ⟨⟨"E1", "G1", 40, 10, 5, 2⟩, by norm_num [exStats1, List.filter]⟩
      · simp at he)
    (by simp [exGxG1, rowKeys])
    (fun g hg => by
      simp only [exGxG1, rowKeys, List.map_cons, List.map_nil] at hg
      rcases List.mem_cons.1 hg with rfl | hg
      · constructor
        · norm_num [exStats1, List.filter]
        · intro st1 h1 st2 h2 _ _
          simp only [exStats1, List.mem_cons, List.not_mem_nil, or_false] at h1 h2
          subst h1; subst h2; exact ⟨rfl, rfl⟩
      · simp at hg)).1

/-- Counterexample to C4 as stated: for the event `E1` whose reference
`event_std` is `0`, standardization performs no detection at all — the
non-finite quotient appears in the normally returned output table (the
function's result carries no flag, and nothing is logged or raised), so a
degenerate event *does* appear in the output with a non-finite value and
no accompanying signal. -/
theorem C4_counterexample :
    standardizeSplicingNF exStats0 exSplE1
      = some [("E1", [StdCell.nonfinite])] ∧
    exStats0.map StatsRow.event_std = [0] := by
  constructor
  · simp [standardizeSplicingNF, selEventStats, exStats0, exSplE1, rowKeys,
      stdCellDiv]
  · simp [exStats0]

/-- C4 (amended).  The standardizer contains no degeneracy detection:
whenever an event's reference std is zero, every standardized cell of that
row is non-finite and the row is returned inside the ordinary output table
(`some`, no flag, no exclusion) — non-finite z-scores are propagated
silently. -/
theorem C4_degenerate_reference_propagates (stats : List StatsRow)
    (spl : QTable)
    (HsplStats : ∀ e ∈ rowKeys spl, ∃ st,
      stats.filter (fun t => t.event == e) = [st]) :
    ∃ out, standardizeSplicingNF stats spl = some out ∧
      List.Forall₂ (fun r r' => r'.1 = r.1 ∧
          ∀ st, stats.filter (fun t => t.event == r.1) = [st] →
            r'.2 = r.2.map fun x => stdCellDiv x st.event_mean st.event_std)
        spl.rows out ∧
      (∀ x m : ℚ, stdCellDiv x m 0 = StdCell.nonfinite) := by
  obtain ⟨sel, hsel, hlen, hf⟩ := selEventStats_forall2 stats (rowKeys spl) HsplStats
  have hg2 : sel.length = spl.rows.length := by
    rw [hlen]; simp [rowKeys]
  refine ⟨(spl.rows.zip sel).map fun p =>
      (p.1.1, p.1.2.map fun x => stdCellDiv x p.2.event_mean p.2.event_std),
    ?_, ?_, fun x m => by simp [stdCellDiv]⟩
  · simp [standardizeSplicingNF, hsel, hg2]
  · exact zip_rows_event_forall2 spl.rows sel (by rwa [rowKeys] at hf)

/-- Witness for the amended C4 at the degenerate one-event table. -/
theorem C4_degenerate_reference_propagates_witness :
    ∃ out, standardizeSplicingNF exStats0 exSplE1 = some out ∧
      List.Forall₂ (fun r r' => r'.1 = r.1 ∧
          ∀ st, exStats0.filter (fun t => t.event == r.1) = [st] →
            r'.2 = r.2.map fun x => stdCellDiv x st.event_mean st.event_std)
        exSplE1.rows out ∧
      (∀ x m : ℚ, stdCellDiv x m 0 = StdCell.nonfinite) :=
  C4_degenerate_reference_propagates exStats0 exSplE1
    (fun e he => by
      simp only [exSplE1, rowKeys, List.map_cons, List.map_nil] at he
      rcases List.mem_cons.1 he with rfl | he
      · exact ⟨⟨"E1", "G1", 40, 0, 5, 1⟩, by norm_num [exStats0, List.filter]⟩
      · simp at he)

/-! ### Dispatcher lemmas -/

/-- Option-`mapM` keeps the task list's order and arity: projecting a
name from each result matches projecting a key from each input. -/
theorem mapM_map_key {α β γ : Type} {f : α → Option β} {g : β → γ} {h : α → γ}
    (hfg : ∀ a b, f a = some b → g b = h a) :
    ∀ {l : List α} {out : List β}, l.mapM f = some out → out.map g = l.map h := by
  intro l
  induction l with
  | nil => intro out hout; cases hout; rfl
  | cons a l ih =>
    intro out hout
    rw [List.mapM_cons] at hout
    cases hfa : f a with
    | none => rw [hfa] at hout; cases hout
    | some b =>
      rw [hfa] at hout
      cases hrest : l.mapM f with
      | none => rw [hrest] at hout; cases hout
      | some bs =>
        rw [hrest] at hout
        cases hout
        simp only [List.map_cons, hfg a b hfa, ih hrest]

/-- A single failing task aborts the whole Option-`mapM`. -/
theorem mapM_none_of_mem {α β : Type} {f : α → Option β} :
    ∀ {l : List α} {a : α}, a ∈ l → f a = none → l.mapM f = none := by
  intro l
  induction l with
  | nil => intro a ha _; cases ha
  | cons b l ih =>
    intro a ha hfa
    rw [List.mapM_cons]
    rcases List.mem_cons.1 ha with rfl | ha
    · rw [hfa]; rfl
    · cases hfb : f b with
      | none => rfl
      | some c => rw [ih ha hfa]; rfl

/-- If every task succeeds, the Option-`mapM` succeeds. -/
theorem mapM_isSome_of_forall {α β : Type} {f : α → Option β} :
    ∀ {l : List α}, (∀ a ∈ l, ∃ b, f a = some b) →
      ∃ out, l.mapM f = some out := by
  intro l
  induction l with
  | nil => exact fun _ => ⟨[], rfl⟩
  | cons a l ih =>
    intro h
    obtain ⟨b, hb⟩ := h a (by simp)
    obtain ⟨out, hout⟩ := ih fun a' ha' => h a' (by simp [ha'])
    exact ⟨b :: out, by rw [List.mapM_cons, hb, hout]; rfl⟩

/-- Every result of a successful Option-`mapM` comes from some input. -/
theorem mem_of_mapM_some {α β : Type} {f : α → Option β} :
    ∀ {l : List α} {out : List β}, l.mapM f = some out →
      ∀ b ∈ out, ∃ a ∈ l, f a = some b := by
  intro l
  induction l with
  | nil => intro out hout b hb; cases hout; cases hb
  | cons a l ih =>
    intro out hout b hb
    rw [List.mapM_cons] at hout
    cases hfa : f a with
    | none => rw [hfa] at hout; cases hout
    | some c =>
      rw [hfa] at hout
      cases hrest : l.mapM f with
      | none => rw [hrest] at hout; cases hout
      | some cs =>
        rw [hrest] at hout
        cases hout
        rcases List.mem_cons.1 hb with rfl | hb
        · exact ⟨a, by simp, hfa⟩
        · obtain ⟨a', ha', hfa'⟩ := ih hrest b hb
          exact ⟨a', by simp [ha'], hfa'⟩

/-- A successful pair task names its summary after the pair's event. -/
theorem pairTask_event {splicing genexpr : QTable} {csE csG csI : List CoefRow}
    {r : CoefRow} {s : SummaryQ}
    (h : pairTask splicing genexpr csE csG csI r = some s) :
    s.event = r.event := by
  simp only [pairTask, Option.bind_eq_bind, Option.bind_eq_some,
    Option.pure_def, Option.some.injEq] at h
  obtain ⟨bE, -, bG, -, bI, -, psi, -, tpm, -, hs⟩ := h
  rw [← hs]
  rfl

/-- The row keys of each aggregated output table are the events of the
pairs enumerated from the event-coefficient table, in its row order. -/
theorem computeSplicingDependency_rowKeys {nJobs : ℕ}
    {splicing genexpr : QTable} {csE csG csI : List CoefRow}
    {res : SplDepResult}
    (h : computeSplicingDependency nJobs splicing genexpr csE csG csI
      = some res) :
    rowKeys res.mean = csE.map (fun r => r.event) ∧
    rowKeys res.median = csE.map (fun r => r.event) ∧
    rowKeys res.var = csE.map (fun r => r.event) ∧
    rowKeys res.q25 = csE.map (fun r => r.event) ∧
    rowKeys res.q75 = csE.map (fun r => r.event) := by
  rw [computeSplicingDependency] at h
  cases hm : csE.mapM fun r => pairTask splicing genexpr csE csG csI r with
  | none => rw [hm] at h; cases h
  | some summaries =>
    rw [hm] at h
    cases h
    have hkeys : summaries.map SummaryQ.event = csE.map (fun r => r.event) :=
      mapM_map_key (fun a b hb => pairTask_event hb) hm
    refine ⟨?_, ?_, ?_, ?_, ?_⟩ <;>
      simpa [aggregateTables, rowKeys, List.map_map, Function.comp] using hkeys

/-- C6.  The five aggregated output tables have their rows in exactly the
order the (Event, Gene) pairs were enumerated from the coefficient index,
and the result does not depend on the worker count `n_jobs` (joblib's
`Parallel` collects results in dispatch order): any worker count produces
the very same tables as `n_jobs = 1`. -/
theorem C6_order_independence (nJobs : ℕ) (splicing genexpr : QTable)
    (csE csG csI : List CoefRow) :
    computeSplicingDependency nJobs splicing genexpr csE csG csI
      = computeSplicingDependency 1 splicing genexpr csE csG csI ∧
    ∀ res, computeSplicingDependency nJobs splicing genexpr csE csG csI
        = some res →
      rowKeys res.mean = csE.map (fun r => r.event) ∧
      rowKeys res.median = csE.map (fun r => r.event) ∧
      rowKeys res.var = csE.map (fun r => r.event) ∧
      rowKeys res.q25 = csE.map (fun r => r.event) ∧
      rowKeys res.q75 = csE.map (fun r => r.event) ∧
      (stdTable res).map Prod.fst = csE.map (fun r => r.event) := by
  refine ⟨rfl, fun res h => ?_⟩
  obtain ⟨h1, h2, h3, h4, h5⟩ := computeSplicingDependency_rowKeys h
  refine ⟨h1, h2, h3, h4, h5, ?_⟩
  have : (stdTable res).map Prod.fst = rowKeys res.var := by
    simp [stdTable, rowKeys, List.map_map, Function.comp]
  rw [this, h3]

/-- Witness for C6: a concrete one-pair run, evaluated with worker counts
2 and 1. -/
theorem C6_order_independence_witness :
    computeSplicingDependency 2 exSplP exGxP exCsP exCsG exCsI
      = computeSplicingDependency 1 exSplP exGxP exCsP exCsG exCsI ∧
    ∃ res, computeSplicingDependency 2 exSplP exGxP exCsP exCsG exCsI
        = some res ∧ rowKeys res.mean = exCsP.map (fun r => r.event) := by
  have h : computeSplicingDependency 2 exSplP exGxP exCsP exCsG exCsI
      = some (aggregateTables ["S1"]
          [computeSingleSplicingDependency "E1" [1] [0] [0] [1] [0]]) := by
    rfl
  exact ⟨(C6_order_independence 2 exSplP exGxP exCsP exCsG exCsI).1,
    ⟨_, h, ((C6_order_independence 2 exSplP exGxP exCsP exCsG exCsI).2 _ h).1⟩⟩

/-- Counterexample to C3 as stated: the pair `(E1, G1)` is present in the
event-coefficient table (and in the PSI/expression tables) but has no
entry in the intercept-coefficient table.  The claim says the pair is
skipped, logged, and the run completes for the remaining pairs; instead
the `.loc` lookup fails (`KeyError`) and the whole run aborts with no
result tables at all — and nothing is logged or reported anywhere (the
result type carries no skip report). -/
theorem C3_counterexample :
    (lookupCoefs exCsP "E1" "G1").isSome = true ∧
    lookupCoefs exCsIother "E1" "G1" = none ∧
    computeSplicingDependency 1 exSplP exGxP exCsP exCsG exCsIother
      = none :=
  ⟨rfl, rfl, rfl⟩

/-- C3 (amended).  A pair absent from the event-coefficient table is
silently excluded: it is never enumerated, so its event is absent from
every output table (no zero-fill, no NaN row) — but nothing is logged or
reported.  A pair that is enumerated (present in the event-coefficient
table) but missing from the gene- or intercept-coefficient table makes
its task lookup fail, which aborts the entire run instead of completing
for the remaining pairs. -/
theorem C3_missing_pair (nJobs : ℕ) (splicing genexpr : QTable)
    (csE csG csI : List CoefRow) :
    (∀ e, (∀ r ∈ csE, r.event ≠ e) →
      ∀ res, computeSplicingDependency nJobs splicing genexpr csE csG csI
          = some res →
        e ∉ rowKeys res.mean ∧ e ∉ rowKeys res.median ∧
        e ∉ rowKeys res.var ∧ e ∉ rowKeys res.q25 ∧ e ∉ rowKeys res.q75) ∧
    (∀ r ∈ csE, (lookupCoefs csG r.event r.ensembl = none ∨
        lookupCoefs csI r.event r.ensembl = none) →
      computeSplicingDependency nJobs splicing genexpr csE csG csI = none) := by
  constructor
  · intro e he res h
    obtain ⟨h1, h2, h3, h4, h5⟩ := computeSplicingDependency_rowKeys h
    have hnot : e ∉ csE.map (fun r => r.event) := by
      intro hm
      obtain ⟨r, hr, hre⟩ := List.mem_map.1 hm
      exact he r hr hre
    rw [h1, h2, h3, h4, h5]
    exact ⟨hnot, hnot, hnot, hnot, hnot⟩
  · intro r hr hor
    have hpt : pairTask splicing genexpr csE csG csI r = none := by
      rcases hor with h | h
      · cases hE : lookupCoefs csE r.event r.ensembl <;>
          simp [pairTask, hE, h]
      · cases hE : lookupCoefs csE r.event r.ensembl
        · simp [pairTask, hE]
        · cases hG : lookupCoefs csG r.event r.ensembl <;>
            simp [pairTask, hE, hG, h]
    rw [computeSplicingDependency, mapM_none_of_mem hr hpt]
    rfl

/-- Witness for the amended C3: the concrete aborting run. -/
theorem C3_missing_pair_witness :
    computeSplicingDependency 1 exSplP exGxP exCsP exCsG exCsIother
      = none :=
  (C3_missing_pair 1 exSplP exGxP exCsP exCsG exCsIother).2
    ⟨"E1", "g", "G1", [1]⟩ (by simp [exCsP]) (Or.inr rfl)

/-! ### Cell-level restriction lemmas (for the max-harm score) -/

/-- Row lookup commutes with row selection for selected keys. -/
theorem lookupRow_locRows_of_mem {t : QTable} {e : String} {vs : List ℚ}
    (hvs : lookupRow t e = some vs) :
    ∀ {keys : List String}, e ∈ keys →
      lookupRow (locRows keys t) e = some vs := by
  intro keys
  induction keys with
  | nil => intro h; cases h
  | cons k ks ih =>
    intro hmem
    by_cases hek : k = e
    · subst hek
      have hsh : (locRows (k :: ks) t).rows = (k, vs) :: (locRows ks t).rows := by
        simp only [locRows, List.filterMap_cons, hvs, Option.map_some']
      rw [lookupRow, hsh, List.find?_cons_of_pos _ (by simp)]
      rfl
    · rcases List.mem_cons.1 hmem with rfl | hmem'
      · exact absurd rfl hek
      · have ihre := ih hmem'
        cases hk : lookupRow t k with
        | none =>
          have hsh : (locRows (k :: ks) t).rows = (locRows ks t).rows := by
            simp only [locRows, List.filterMap_cons, hk, Option.map_none']
          rw [lookupRow, hsh]
          exact ihre
        | some vs' =>
          have hsh : (locRows (k :: ks) t).rows
              = (k, vs') :: (locRows ks t).rows := by
            simp only [locRows, List.filterMap_cons, hk, Option.map_some']
          rw [lookupRow, hsh, List.find?_cons_of_neg _ (by simp [hek])]
          exact ihre

/-- Row lookup through column selection: the found row is the original
row with its values re-indexed to the selected columns. -/
theorem lookupRow_locCols (cs : List String) (t : QTable) (e : String) :
    lookupRow (locCols cs t) e
      = (lookupRow t e).map fun vs =>
          cs.filterMap fun s => (colIdx t s).bind fun j => vs[j]? := by
  have hpred : ((fun r : String × List ℚ => r.1 == e) ∘ fun r : String × List ℚ =>
      (r.1, cs.filterMap fun s => (colIdx t s).bind fun j => r.2[j]?))
      = fun r : String × List ℚ => r.1 == e := rfl
  simp only [lookupRow, locCols, List.find?_map, hpred]
  cases t.rows.find? fun r => r.1 == e with
  | none => rfl
  | some r => rfl

/-- A filterMap whose function succeeds everywhere is a map. -/
theorem filterMap_eq_map_of_some {α β : Type} {f : α → Option β} {g : α → β} :
    ∀ {l : List α}, (∀ a ∈ l, f a = some (g a)) → l.filterMap f = l.map g := by
  intro l
  induction l with
  | nil => intro _; rfl
  | cons a l ih =>
    intro h
    rw [List.filterMap_cons, h a (by simp), List.map_cons,
      ih fun a' ha' => h a' (by simp [ha'])]

/-- A present column label has a well-defined position and content. -/
theorem colIdx_spec {cols : List String} {s : String} (hs : s ∈ cols) :
    ∃ j, cols.findIdx? (· == s) = some j ∧
      ∃ hj : j < cols.length, cols[j] = s := by
  have hsome : (cols.findIdx? (· == s)).isSome := by
    rw [List.findIdx?_isSome]
    exact List.any_eq_true.2 ⟨s, hs, by simp⟩
  obtain ⟨j, hj⟩ := Option.isSome_iff_exists.1 hsome
  obtain ⟨hlt, hcol, -⟩ := List.findIdx?_eq_some_iff_getElem.1 hj
  exact ⟨j, hj, hlt, by simpa using hcol⟩

/-- A row found by lookup satisfies table well-formedness. -/
theorem lookupRow_length {t : QTable} (hWF : WFTable t) {k : String}
    {vs : List ℚ} (h : lookupRow t k = some vs) :
    vs.length = t.cols.length := by
  rcases Option.map_eq_some'.1 h with ⟨r, hr, hsnd⟩
  exact hsnd ▸ hWF r (List.mem_of_find?_eq_some hr)

/-- Restriction keeps the contents: for a selected row key the restricted
row enumerates, per selected column, exactly the original cells. -/
theorem restrict_lookup {t : QTable} {rEnum cEnum : List String} {e : String}
    (hWF : WFTable t) (hcols : ∀ c ∈ cEnum, c ∈ t.cols) (he : e ∈ rEnum)
    (hel : e ∈ rowKeys t) :
    ∃ vs, lookupRow t e = some vs ∧
      lookupRow (restrictTable rEnum cEnum t) e
        = some (cEnum.map fun s =>
            (((colIdx t s).bind fun j => vs[j]?).getD 0)) ∧
      ∀ s ∈ cEnum, cellAt t e s
        = some (((colIdx t s).bind fun j => vs[j]?).getD 0) := by
  obtain ⟨vs, hvs⟩ := lookupRow_isSome_of_mem hel
  have hlen : vs.length = t.cols.length := lookupRow_length hWF hvs
  have hall : ∀ s ∈ cEnum,
      ((colIdx t s).bind fun j => vs[j]?)
        = some ((((colIdx t s).bind fun j => vs[j]?)).getD 0) := by
    intro s hs
    obtain ⟨j, hj, hjlt, -⟩ := colIdx_spec (hcols s hs)
    have hjv : j < vs.length := by rw [hlen]; exact hjlt
    rw [colIdx, hj]
    simp [List.getElem?_eq_getElem hjv]
  refine ⟨vs, hvs, ?_, ?_⟩
  · rw [restrictTable, lookupRow_locCols,
      lookupRow_locRows_of_mem hvs he, Option.map_some']
    have : (locRows rEnum t).cols = t.cols := rfl
    rw [Option.some_inj]
    calc cEnum.filterMap (fun s => (colIdx (locRows rEnum t) s).bind fun j => vs[j]?)
        = cEnum.filterMap (fun s => (colIdx t s).bind fun j => vs[j]?) := rfl
      _ = cEnum.map fun s => (((colIdx t s).bind fun j => vs[j]?).getD 0) :=
          filterMap_eq_map_of_some hall
  · intro s hs
    rw [cellAt, hvs, Option.some_bind]
    exact hall s hs

/-- Looking up a key in the zipped max-harm rows equals zipping the two
individual lookups, provided the two tables list the same keys in the
same order. -/
theorem maxharm_lookup :
    ∀ (rowsD rowsS : List (String × List ℚ)),
    rowsD.map Prod.fst = rowsS.map Prod.fst →
    ∀ e, (((rowsD.zip rowsS).map fun p =>
        (p.1.1, (p.1.2.zip p.2.2).map fun c => maxHarmCell c.1 c.2)).find?
          fun r => r.1 == e)
      = ((rowsD.find? fun r => r.1 == e).bind fun rD =>
          (rowsS.find? fun r => r.1 == e).map fun rS =>
            (rD.1, (rD.2.zip rS.2).map fun c => maxHarmCell c.1 c.2)) := by
  intro rowsD
  induction rowsD with
  | nil =>
    intro rowsS h e
    have : rowsS = [] := by
      cases rowsS with
      | nil => rfl
      | cons r rs => cases h
    subst this
    rfl
  | cons rD rowsD ih =>
    intro rowsS h e
    cases rowsS with
    | nil => cases h
    | cons rS rowsS =>
      simp only [List.map_cons, List.cons.injEq] at h
      obtain ⟨hk, htail⟩ := h
      by_cases hbe : rD.1 = e
      · subst hbe
        simp only [List.zip_cons_cons, List.map_cons]
        rw [List.find?_cons_of_pos _ (by simp),
          List.find?_cons_of_pos _ (by simp),
          List.find?_cons_of_pos _ (by simp [← hk])]
        rfl
      · simp only [List.zip_cons_cons, List.map_cons]
        rw [List.find?_cons_of_neg _ (by simp [hbe]),
          List.find?_cons_of_neg _ (by simp [hbe]),
          List.find?_cons_of_neg _ (by simp [← hk, hbe])]
        exact ih rowsS htail e

/-- C5.  The max-harm score: per cell,
`max_harm = -1 * d * (final_psi - p)` with `final_psi = 0` for a negative
dependency score and `100` for a positive one (for the remaining case
`d = 0` both readings give `0`, so the claim's formula holds for every
cell); in particular `d = -2, p = 30 ↦ -60` and `d = 2, p = 30 ↦ -140`;
and the computation first restricts both input tables to their common
events and samples. -/
theorem C5_max_harm_score :
    (∀ d p : ℚ, maxHarmCell d p = -1 * d * ((if d < 0 then 0 else 100) - p)) ∧
    maxHarmCell (-2) 30 = -60 ∧
    maxHarmCell 2 30 = -140 ∧
    ∀ (splicing spldep : QTable) (eEnum sEnum : List String),
      WFTable splicing → WFTable spldep →
      (∀ k ∈ eEnum, k ∈ rowKeys splicing ∧ k ∈ rowKeys spldep) →
      (∀ c ∈ sEnum, c ∈ splicing.cols ∧ c ∈ spldep.cols) →
      (computeMaxHarmScore eEnum sEnum splicing spldep).cols = sEnum ∧
      rowKeys (computeMaxHarmScore eEnum sEnum splicing spldep) = eEnum ∧
      ∀ e ∈ eEnum, ∀ s ∈ sEnum, ∀ d p : ℚ,
        cellAt spldep e s = some d → cellAt splicing e s = some p →
        cellAt (computeMaxHarmScore eEnum sEnum splicing spldep) e s
          = some (maxHarmCell d p) := by
  refine ⟨?_, by norm_num [maxHarmCell, psiFinalCell],
    by norm_num [maxHarmCell, psiFinalCell], ?_⟩
  · intro d p
    rcases lt_trichotomy d 0 with h | h | h
    · simp [maxHarmCell, psiFinalCell, h]
    · subst h
      simp [maxHarmCell, psiFinalCell]
    · simp [maxHarmCell, psiFinalCell, h, lt_asymm h]
  · intro splicing spldep eEnum sEnum hWFs hWFd hkeys hcols
    have hkS : ∀ k ∈ eEnum, k ∈ rowKeys splicing := fun k hk => (hkeys k hk).1
    have hkD : ∀ k ∈ eEnum, k ∈ rowKeys spldep := fun k hk => (hkeys k hk).2
    have hrowD : rowKeys (restrictTable eEnum sEnum spldep) = eEnum := by
      rw [restrictTable, rowKeys_locCols, rowKeys_locRows hkD]
    have hrowS : rowKeys (restrictTable eEnum sEnum splicing) = eEnum := by
      rw [restrictTable, rowKeys_locCols, rowKeys_locRows hkS]
    have hkseq : (restrictTable eEnum sEnum spldep).rows.map Prod.fst
        = (restrictTable eEnum sEnum splicing).rows.map Prod.fst := by
      rw [show (restrictTable eEnum sEnum spldep).rows.map Prod.fst
          = rowKeys (restrictTable eEnum sEnum spldep) from rfl, hrowD,
        show (restrictTable eEnum sEnum splicing).rows.map Prod.fst
          = rowKeys (restrictTable eEnum sEnum splicing) from rfl, hrowS]
    have hlen : (restrictTable eEnum sEnum spldep).rows.length
        = (restrictTable eEnum sEnum splicing).rows.length := by
      have h1 := congrArg List.length hkseq
      simpa using h1
    refine ⟨rfl, ?_, ?_⟩
    · show ((((restrictTable eEnum sEnum spldep).rows.zip
        (restrictTable eEnum sEnum splicing).rows).map fun p =>
          (p.1.1, (p.1.2.zip p.2.2).map fun c => maxHarmCell c.1 c.2)).map
            Prod.fst) = eEnum
      rw [List.map_map]
      have hcomp : (Prod.fst ∘ fun p : (String × List ℚ) × (String × List ℚ) =>
          (p.1.1, (p.1.2.zip p.2.2).map fun c => maxHarmCell c.1 c.2))
          = Prod.fst ∘ (Prod.fst : (String × List ℚ) × (String × List ℚ)
              → String × List ℚ) := rfl
      rw [hcomp, ← List.map_map, List.map_fst_zip _ _ (le_of_eq hlen)]
      exact hrowD
    · intro e he s hs d p hd hp
      obtain ⟨vsD, hvsD, hlookD, hcellD⟩ := restrict_lookup hWFd
        (fun c hc => (hcols c hc).2) he (hkD e he)
      obtain ⟨vsS, hvsS, hlookS, hcellS⟩ := restrict_lookup hWFs
        (fun c hc => (hcols c hc).1) he (hkS e he)
      have hdv : d = (((colIdx spldep s).bind fun j => vsD[j]?).getD 0) := by
        have := hcellD s hs
        rw [hd] at this
        exact Option.some_inj.1 this
      have hpv : p = (((colIdx splicing s).bind fun j => vsS[j]?).getD 0) := by
        have := hcellS s hs
        rw [hp] at this
        exact Option.some_inj.1 this
      obtain ⟨rD, hfindD, hsndD⟩ := Option.map_eq_some'.1 hlookD
      obtain ⟨rS, hfindS, hsndS⟩ := Option.map_eq_some'.1 hlookS
      obtain ⟨j, hj, hjlt, hcol⟩ := colIdx_spec hs
      have hfind := maxharm_lookup
        (restrictTable eEnum sEnum spldep).rows
        (restrictTable eEnum sEnum splicing).rows hkseq e
      simp only [cellAt, lookupRow, computeMaxHarmScore, colIdx]
      rw [hfind, hfindD, Option.some_bind, hfindS, Option.map_some',
        Option.map_some', Option.some_bind, hsndD, hsndS]
      have hzip : ((sEnum.map fun s' =>
            (((colIdx spldep s').bind fun j' => vsD[j']?).getD 0)).zip
          (sEnum.map fun s' =>
            (((colIdx splicing s').bind fun j' => vsS[j']?).getD 0))).map
              (fun c => maxHarmCell c.1 c.2)
          = sEnum.map fun s' => maxHarmCell
              (((colIdx spldep s').bind fun j' => vsD[j']?).getD 0)
              (((colIdx splicing s').bind fun j' => vsS[j']?).getD 0) := by
        rw [List.zip_map', List.map_map]
        rfl
      rw [hzip, hj, Option.some_bind]
      rw [List.getElem?_map, List.getElem?_eq_getElem hjlt, Option.map_some',
        hcol, hdv, hpv]

/-- Witness for C5's table-level part: the spec's `d = -2`, `p = 30` cell
through the full restriction pipeline. -/
theorem C5_max_harm_score_witness :
    cellAt (computeMaxHarmScore ["E1"] ["S1"] exSplM exDepM) "E1" "S1"
      = some (maxHarmCell (-2) 30) :=
  (C5_max_harm_score.2.2.2 exSplM exDepM ["E1"] ["S1"]
    (by intro r hr; simp only [exSplM] at hr; rcases List.mem_cons.1 hr with rfl | h
        · rfl
        · simp at h)
    (by intro r hr; simp only [exDepM] at hr; rcases List.mem_cons.1 hr with rfl | h
        · rfl
        · simp at h)
    (by intro k hk; rcases List.mem_cons.1 hk with rfl | h
        · exact ⟨by simp [exSplM, rowKeys], by simp [exDepM, rowKeys]⟩
        · simp at h)
    (by intro c hc; rcases List.mem_cons.1 hc with rfl | h
        · exact ⟨by simp [exSplM], by simp [exDepM]⟩
        · simp at h)).2.2 "E1" (by simp) "S1" (by simp) (-2) 30 rfl rfl

/-- C10.  With both `normalize_counts=True` and `log_transform=True`, the
`if/elif` chain applies only the count-to-TPM conversion and silently
skips the `log2(x+1)` transform — `normalize_counts` takes precedence and
the function returns normally (it is total: no error or warning is raised
despite the spec declaring the two options mutually exclusive).  The
`elif` branch runs only when `normalize_counts` is false. -/
theorem C10_normalize_counts_precedence :
    ∀ (geneLengths : String → ℝ) (g : RTable),
      transformGenexpr true true geneLengths g = count_to_tpm geneLengths g ∧
      transformGenexpr false true geneLengths g = log2Transform g ∧
      transformGenexpr false false geneLengths g = g :=
  fun _ _ => ⟨rfl, rfl, rfl⟩

/-! ### Empty-intersection lemmas (claim C8) -/

/-- A common gene forces a common event (the witnessing coefficient row's
event qualifies), so an empty event intersection empties the genes too. -/
theorem commonEvent_of_commonGene {csE : List CoefRow} {spl gx : QTable}
    {g : String} (h : CommonGene csE spl gx g) :
    ∃ e, CommonEvent csE spl gx e := by
  obtain ⟨-, hgx, r, hr, hrg, hspl⟩ := h
  exact ⟨r.event, List.mem_map_of_mem _ hr, hspl, r, hr, rfl, hrg ▸ hgx⟩

/-- A coefficient row is found by the keyed lookup of its own table. -/
theorem lookupCoefs_isSome_of_mem {cs : List CoefRow} {r : CoefRow}
    (hr : r ∈ cs) : ∃ b, lookupCoefs cs r.event r.ensembl = some b := by
  have hs : (cs.find? fun r' => r'.event == r.event && r'.ensembl == r.ensembl).isSome := by
    rw [List.find?_isSome]
    exact ⟨r, hr, by simp⟩
  obtain ⟨r', hr'⟩ := Option.isSome_iff_exists.1 hs
  exact ⟨r'.coefs, by simp [lookupCoefs, hr']⟩

/-- A pair task whose five lookups all succeed returns a summary. -/
theorem pairTask_isSome {splicing genexpr : QTable} {csE csG csI : List CoefRow}
    {r : CoefRow}
    (hbE : ∃ b, lookupCoefs csE r.event r.ensembl = some b)
    (hbG : ∃ b, lookupCoefs csG r.event r.ensembl = some b)
    (hbI : ∃ b, lookupCoefs csI r.event r.ensembl = some b)
    (hpsi : ∃ v, lookupRow splicing r.event = some v)
    (htpm : ∃ v, lookupRow genexpr r.ensembl = some v) :
    ∃ s, pairTask splicing genexpr csE csG csI r = some s := by
  obtain ⟨bE, h1⟩ := hbE
  obtain ⟨bG, h2⟩ := hbG
  obtain ⟨bI, h3⟩ := hbI
  obtain ⟨psi, h4⟩ := hpsi
  obtain ⟨tpm, h5⟩ := htpm
  exact ⟨computeSingleSplicingDependency r.event bE bG bI psi tpm,
    by simp [pairTask, h1, h2, h3, h4, h5]⟩

/-- With an empty standardized PSI row (no samples), every summary series
of the evaluated pair is empty. -/
theorem pairTask_nil_fields {splicing genexpr : QTable}
    {csE csG csI : List CoefRow} {r : CoefRow} {s : SummaryQ}
    (hnil : ∀ vs, lookupRow splicing r.event = some vs → vs = [])
    (h : pairTask splicing genexpr csE csG csI r = some s) :
    s.mean = [] ∧ s.median = [] ∧ s.var = [] ∧ s.q25 = [] ∧ s.q75 = [] := by
  simp only [pairTask, Option.bind_eq_bind, Option.bind_eq_some,
    Option.pure_def, Option.some.injEq] at h
  obtain ⟨bE, -, bG, -, bI, -, psi, hpsi, tpm, -, hs⟩ := h
  have : psi = [] := hnil psi hpsi
  subst this
  rw [← hs]
  exact ⟨rfl, rfl, rfl, rfl, rfl⟩

/-- In a table whose rows all carry no values, any found row is empty. -/
theorem rows_nil_lookup {t : QTable}
    (h : ∀ row ∈ t.rows, row.2 = ([] : List ℚ)) :
    ∀ k vs, lookupRow t k = some vs → vs = [] := by
  intro k vs hvs
  rcases Option.map_eq_some'.1 hvs with ⟨r, hr, hsnd⟩
  exact hsnd ▸ h r (List.mem_of_find?_eq_some hr)

/-- A sum of zeros. -/
theorem sum_zeros {l : List ℕ} (h : ∀ x ∈ l, x = 0) : l.sum = 0 := by
  induction l with
  | nil => rfl
  | cons a l ih => simp [h a (by simp), ih fun x hx => h x (by simp [hx])]

/-- Aggregating summaries whose series are all empty yields zero cells. -/
theorem resultCells_zero {cols : List String} {summaries : List SummaryQ}
    (h : ∀ s ∈ summaries, s.mean = [] ∧ s.median = [] ∧ s.var = [] ∧
      s.q25 = [] ∧ s.q75 = []) :
    resultCells (aggregateTables cols summaries) = 0 := by
  have hone : ∀ (f : SummaryQ → List ℚ), (∀ s ∈ summaries, f s = []) →
      tableCells ⟨cols, summaries.map fun s => (s.event, f s)⟩ = 0 := by
    intro f hf
    rw [tableCells]
    apply sum_zeros
    intro x hx
    simp only [List.map_map, List.mem_map, Function.comp] at hx
    obtain ⟨s, hs, rfl⟩ := hx
    simp [hf s hs]
  rw [resultCells, aggregateTables]
  rw [hone SummaryQ.mean fun s hs => (h s hs).1,
    hone SummaryQ.median fun s hs => (h s hs).2.1,
    hone SummaryQ.var fun s hs => (h s hs).2.2.1,
    hone SummaryQ.q25 fun s hs => (h s hs).2.2.2.1,
    hone SummaryQ.q75 fun s hs => (h s hs).2.2.2.2]

/-- Standardizing a rowless table succeeds and returns no rows. -/
theorem standardizeSplicing_nil (stats : List StatsRow) (cols : List String) :
    standardizeSplicing stats ⟨cols, []⟩ = some ⟨cols, []⟩ := by
  simp [standardizeSplicing, selEventStats, rowKeys]

/-- Standardizing a rowless expression table succeeds with no rows. -/
theorem standardizeGenexpr_nil (stats : List StatsRow) (cols : List String) :
    standardizeGenexpr stats ⟨cols, []⟩ = some ⟨cols, []⟩ := by
  simp [standardizeGenexpr, geneMeans, geneStds, selGeneStats, rowKeys,
    dropDuplicates]

/-- Shape of a successful PSI standardization: same row keys, same
per-row value count. -/
theorem standardizeSplicing_shape {stats : List StatsRow} {t out : QTable}
    (h : standardizeSplicing stats t = some out) :
    rowKeys out = rowKeys t ∧
    ∀ row' ∈ out.rows, ∃ row ∈ t.rows, row'.1 = row.1 ∧
      row'.2.length = row.2.length := by
  rw [standardizeSplicing] at h
  split at h
  case isTrue hlen =>
    cases h
    constructor
    · show ((t.rows.zip (selEventStats stats (rowKeys t))).map _).map Prod.fst
        = t.rows.map Prod.fst
      rw [List.map_map]
      have : (Prod.fst ∘ fun p : (String × List ℚ) × StatsRow =>
          (p.1.1, p.1.2.map fun x => (x - p.2.event_mean) / p.2.event_std))
          = Prod.fst ∘ (Prod.fst : (String × List ℚ) × StatsRow
              → String × List ℚ) := rfl
      rw [this, ← List.map_map, List.map_fst_zip]
      rw [hlen]
    · intro row' hrow'
      obtain ⟨p, hp, rfl⟩ := List.mem_map.1 hrow'
      obtain ⟨h1, -⟩ := List.of_mem_zip hp
      exact ⟨p.1, h1, rfl, by simp⟩
  case isFalse => cases h

/-- Shape of a successful expression standardization. -/
theorem standardizeGenexpr_shape {stats : List StatsRow} {t out : QTable}
    (h : standardizeGenexpr stats t = some out) :
    rowKeys out = rowKeys t := by
  rw [standardizeGenexpr] at h
  split at h
  case isTrue hlen =>
    cases h
    show ((t.rows.zip ((geneMeans stats (rowKeys t)).zip
      (geneStds stats (rowKeys t)))).map _).map Prod.fst = t.rows.map Prod.fst
    rw [List.map_map]
    have : (Prod.fst ∘ fun p : (String × List ℚ) × (ℚ × ℚ) =>
        (p.1.1, p.1.2.map fun x => (x - p.2.1) / p.2.2))
        = Prod.fst ∘ (Prod.fst : (String × List ℚ) × (ℚ × ℚ)
            → String × List ℚ) := rfl
    rw [this, ← List.map_map, List.map_fst_zip]
    rw [List.length_zip]
    have h1 : (geneMeans stats (List.map Prod.fst t.rows)).length
        = t.rows.length := hlen.1
    have h2 : (geneStds stats (List.map Prod.fst t.rows)).length
        = t.rows.length := hlen.2
    omega
  case isFalse => cases h

/-- PSI standardization succeeds when every event of the table has exactly
one reference row. -/
theorem standardizeSplicing_isSome {stats : List StatsRow} {t : QTable}
    (H : ∀ e ∈ rowKeys t, ∃ st, stats.filter (fun x => x.event == e) = [st]) :
    ∃ out, standardizeSplicing stats t = some out := by
  obtain ⟨sel, hsel, hlen, -⟩ := selEventStats_forall2 stats (rowKeys t) H
  have hg : (selEventStats stats (rowKeys t)).length = t.rows.length := by
    rw [hsel, hlen]
    simp [rowKeys]
  exact ⟨⟨t.cols, (t.rows.zip (selEventStats stats (rowKeys t))).map fun p =>
      (p.1.1, p.1.2.map fun x => (x - p.2.event_mean) / p.2.event_std)⟩, by
    unfold standardizeSplicing
    rw [if_pos hg]⟩

/-- Expression standardization succeeds when the gene index is
duplicate-free and every gene has usable reference statistics. -/
theorem standardizeGenexpr_isSome {stats : List StatsRow} {t : QTable}
    (hnd : (rowKeys t).Nodup) (H : ∀ g ∈ rowKeys t, GeneOK stats g) :
    ∃ out, standardizeGenexpr stats t = some out := by
  obtain ⟨ms, hms, hmlen, -⟩ := dedup_gene_vals stats StatsRow.gene_mean
    (rowKeys t) hnd
    (fun g hg => ⟨(H g hg).1,
      fun st1 h1 st2 h2 hg1 hg2 => ((H g hg).2 st1 h1 st2 h2 hg1 hg2).1⟩)
  obtain ⟨ss, hss, hslen, -⟩ := dedup_gene_vals stats StatsRow.gene_std
    (rowKeys t) hnd
    (fun g hg => ⟨(H g hg).1,
      fun st1 h1 st2 h2 hg1 hg2 => ((H g hg).2 st1 h1 st2 h2 hg1 hg2).2⟩)
  have hg1 : (geneMeans stats (rowKeys t)).length = t.rows.length := by
    rw [geneMeans, hms, hmlen]
    simp [rowKeys]
  have hg2 : (geneStds stats (rowKeys t)).length = t.rows.length := by
    rw [geneStds, hss, hslen]
    simp [rowKeys]
  exact ⟨⟨t.cols, (t.rows.zip ((geneMeans stats (rowKeys t)).zip
      (geneStds stats (rowKeys t)))).map fun p =>
        (p.1.1, p.1.2.map fun x => (x - p.2.1) / p.2.2)⟩, by
    unfold standardizeGenexpr
    rw [if_pos ⟨hg1, hg2⟩]⟩

/-- C8.  If the Event (hence Gene) key intersection or the Sample key
intersection is empty, alignment produces tables with no cells at all (no
error is raised: every stage is total up to the `KeyError`-free path) and
the downstream prediction completes with five output tables that contain
no cells — the empty result is handed back to the caller rather than
failing.  For the empty-sample case the reference statistics and
coefficient tables are assumed usable for the surviving keys, as in any
successful run. -/
theorem C8_empty_intersection (nJobs : ℕ) (stats : List StatsRow)
    (csE csG csI : List CoefRow) (spl gx : QTable)
    (eEnum gEnum sEnum : List String)
    (hE : ValidEnum eEnum (CommonEvent csE spl gx))
    (hG : ValidEnum gEnum (CommonGene csE spl gx))
    (hS : ValidEnum sEnum (CommonSample spl gx))
    (hempty : eEnum = [] ∨ (sEnum = [] ∧
      (∀ e ∈ eEnum, ∃ st, stats.filter (fun x => x.event == e) = [st]) ∧
      (∀ g ∈ gEnum, GeneOK stats g) ∧
      (∀ r ∈ subsetCoefs eEnum gEnum csE,
        (∃ b, lookupCoefs (subsetCoefs eEnum gEnum csG) r.event r.ensembl
          = some b) ∧
        (∃ b, lookupCoefs (subsetCoefs eEnum gEnum csI) r.event r.ensembl
          = some b)))) :
    tableCells (preprocessSubset csE csG csI spl gx eEnum gEnum sEnum).splicing
      = 0 ∧
    tableCells (preprocessSubset csE csG csI spl gx eEnum gEnum sEnum).genexpr
      = 0 ∧
    ∃ res, predictRun nJobs stats csE csG csI spl gx eEnum gEnum sEnum
        = some res ∧ resultCells res = 0 := by
  rcases hempty with henil | ⟨hsnil, Hstats, Hgok, Hpairs⟩
  · subst henil
    have hNoEvent : ∀ x, ¬ CommonEvent csE spl gx x := by
      intro x hx
      have := (hE.2 x).2 hx
      simp at this
    have hgnil : gEnum = [] := by
      cases hgEnum : gEnum with
      | nil => rfl
      | cons g gs =>
        exfalso
        have hg := (hG.2 g).1 (by rw [hgEnum]; simp)
        obtain ⟨e, he⟩ := commonEvent_of_commonGene hg
        exact hNoEvent e he
    subst hgnil
    have hsplR : (preprocessSubset csE csG csI spl gx [] [] sEnum).splicing
        = ⟨sEnum, []⟩ := rfl
    have hgxR : (preprocessSubset csE csG csI spl gx [] [] sEnum).genexpr
        = ⟨sEnum, []⟩ := rfl
    have hcsER : (preprocessSubset csE csG csI spl gx [] [] sEnum).csE = [] := by
      simp [preprocessSubset, subsetCoefs]
    refine ⟨by rw [hsplR]; rfl, by rw [hgxR]; rfl, aggregateTables sEnum [], ?_, ?_⟩
    · unfold predictRun
      simp only [Option.bind_eq_bind]
      rw [hsplR, standardizeSplicing_nil, Option.some_bind,
        hgxR, standardizeGenexpr_nil, Option.some_bind, hcsER]
      rfl
    · exact resultCells_zero fun s hs => absurd hs (List.not_mem_nil s)
  · subst hsnil
    have hEk : ∀ k ∈ eEnum, k ∈ rowKeys spl := fun k hk => ((hE.2 k).1 hk).2.1
    have hGk : ∀ k ∈ gEnum, k ∈ rowKeys gx := fun k hk => ((hG.2 k).1 hk).2.1
    have hsplR : (preprocessSubset csE csG csI spl gx eEnum gEnum []).splicing
        = ⟨[], (locRows eEnum spl).rows.map fun r => (r.1, [])⟩ := rfl
    have hgxR : (preprocessSubset csE csG csI spl gx eEnum gEnum []).genexpr
        = ⟨[], (locRows gEnum gx).rows.map fun r => (r.1, [])⟩ := rfl
    have hkeysS : rowKeys (preprocessSubset csE csG csI spl gx eEnum gEnum []).splicing
        = eEnum := by
      rw [preprocessSubset, rowKeys_locCols, rowKeys_locRows hEk]
    have hkeysG : rowKeys (preprocessSubset csE csG csI spl gx eEnum gEnum []).genexpr
        = gEnum := by
      rw [preprocessSubset, rowKeys_locCols, rowKeys_locRows hGk]
    have hnilS : ∀ row ∈ (preprocessSubset csE csG csI spl gx eEnum gEnum
        []).splicing.rows, row.2 = ([] : List ℚ) := by
      rw [hsplR]
      intro row hrow
      obtain ⟨r, -, rfl⟩ := List.mem_map.1 hrow
      rfl
    have hnilG : ∀ row ∈ (preprocessSubset csE csG csI spl gx eEnum gEnum
        []).genexpr.rows, row.2 = ([] : List ℚ) := by
      rw [hgxR]
      intro row hrow
      obtain ⟨r, -, rfl⟩ := List.mem_map.1 hrow
      rfl
    have hcellS : tableCells (preprocessSubset csE csG csI spl gx eEnum gEnum
        []).splicing = 0 := by
      rw [tableCells]
      apply sum_zeros
      intro x hx
      obtain ⟨row, hrow, rfl⟩ := List.mem_map.1 hx
      rw [hnilS row hrow]
      rfl
    have hcellG : tableCells (preprocessSubset csE csG csI spl gx eEnum gEnum
        []).genexpr = 0 := by
      rw [tableCells]
      apply sum_zeros
      intro x hx
      obtain ⟨row, hrow, rfl⟩ := List.mem_map.1 hx
      rw [hnilG row hrow]
      rfl
    obtain ⟨spl', hspl'⟩ := standardizeSplicing_isSome
      (t := (preprocessSubset csE csG csI spl gx eEnum gEnum []).splicing)
      (fun e he => Hstats e (hkeysS ▸ he))
    obtain ⟨gx', hgx'⟩ := standardizeGenexpr_isSome
      (t := (preprocessSubset csE csG csI spl gx eEnum gEnum []).genexpr)
      (by rw [hkeysG]; exact hG.1) (fun g hg => Hgok g (hkeysG ▸ hg))
    obtain ⟨hkeys', hshape'⟩ := standardizeSplicing_shape hspl'
    have hkeysSpl' : rowKeys spl' = eEnum := by rw [hkeys', hkeysS]
    have hkeysGx' : rowKeys gx' = gEnum := by
      rw [standardizeGenexpr_shape hgx', hkeysG]
    have hnilSpl' : ∀ row ∈ spl'.rows, row.2 = ([] : List ℚ) := by
      intro row hrow
      obtain ⟨row0, hrow0, -, hlen0⟩ := hshape' row hrow
      rw [hnilS row0 hrow0] at hlen0
      exact List.length_eq_zero.1 hlen0
    have htasks : ∀ r ∈ subsetCoefs eEnum gEnum csE,
        ∃ s, pairTask spl' gx' (subsetCoefs eEnum gEnum csE)
          (subsetCoefs eEnum gEnum csG) (subsetCoefs eEnum gEnum csI) r
            = some s := by
      intro r hr
      obtain ⟨hrmem, hre, hrg⟩ := mem_subsetCoefs.1 hr
      refine pairTask_isSome (lookupCoefs_isSome_of_mem hr)
        (Hpairs r hr).1 (Hpairs r hr).2 ?_ ?_
      · exact lookupRow_isSome_of_mem (hkeysSpl' ▸ hre)
      · exact lookupRow_isSome_of_mem (hkeysGx' ▸ hrg)
    obtain ⟨summaries, hsumm⟩ := mapM_isSome_of_forall htasks
    have hfieldsnil : ∀ s ∈ summaries, s.mean = [] ∧ s.median = [] ∧
        s.var = [] ∧ s.q25 = [] ∧ s.q75 = [] := by
      intro s hs
      obtain ⟨r, -, hpt⟩ := mem_of_mapM_some hsumm s hs
      exact pairTask_nil_fields (rows_nil_lookup hnilSpl' r.event) hpt
    refine ⟨hcellS, hcellG, aggregateTables spl'.cols summaries, ?_,
      resultCells_zero hfieldsnil⟩
    unfold predictRun
    simp only [Option.bind_eq_bind]
    rw [hspl', Option.some_bind, hgx', Option.some_bind]
    show (((subsetCoefs eEnum gEnum csE).mapM fun r => pairTask spl' gx'
      (subsetCoefs eEnum gEnum csE) (subsetCoefs eEnum gEnum csG)
      (subsetCoefs eEnum gEnum csI) r).map fun ss =>
        aggregateTables spl'.cols ss)
      = some (aggregateTables spl'.cols summaries)
    rw [hsumm]
    rfl

/-- Witness for C8: a PSI table sharing no events with the coefficient
table — the run completes with cell-free output tables. -/
theorem C8_empty_intersection_witness :
    ∃ res, predictRun 1 [] exCsP exCsG exCsI exSplEmpty exGxP [] [] ["S1"]
        = some res ∧ resultCells res = 0 :=
  (C8_empty_intersection 1 [] exCsP exCsG exCsI exSplEmpty exGxP [] [] ["S1"]
    ⟨List.nodup_nil, fun x => by
      simp [CommonEvent, exSplEmpty, rowKeys]⟩
    ⟨List.nodup_nil, fun x => by
      simp [CommonGene, exSplEmpty, rowKeys]⟩
    ⟨by simp, fun x => by
      constructor
      · intro hx
        rcases List.mem_cons.1 hx with rfl | hx
        · exact ⟨by simp [exSplEmpty], by simp [exGxP]⟩
        · simp at hx
      · rintro ⟨h1, -⟩
        simpa [exSplEmpty] using h1⟩
    (Or.inl rfl)).2.2

end TargetSpotter
